import Mathlib

/-! ## Definitions: shallow embedding of the simplex-go core -/

/-!
# Verification of the simplex-go core (exact fraction arithmetic + simplex tableau)

Shallow embedding of `fraction/fraction.go` and `tableau/tableau.go`.
Go `int` is modelled as `Int` (overflow is outside the scope of the claims);
Go's truncated `/` and `%` on integers are `Int.tdiv` and `Int.tmod`.
-/

/-- `Fraction` mirrors the Go struct `fraction.Fraction` with fields `N`, `D`. -/
structure Fraction where
  N : Int
  D : Int
deriving DecidableEq, Repr

/-- The Euclid loop inside `Fraction.gcd`:

```go
f := 0
for {
  if f = a % b; f == 0 { return b }
  a = b
  b = f
}
```

The loop is embedded with an explicit fuel argument so that it stays
structurally recursive (and hence kernel-computable); `b.natAbs` units of
fuel always suffice because Go's `%` strictly decreases `|b|`
(`natAbs_tmod_lt`), so the fuel never runs out on the entry values
`Fraction.gcd` supplies (`gcdLoopAux_spec` is proved under exactly that
bound). -/
def gcdLoopAux : Nat → Int → Int → Int
  | 0, _, b => b
  | fuel + 1, a, b =>
    let f := Int.tmod a b
    if f = 0 then b else gcdLoopAux fuel b f

/-- `func (n Fraction) gcd() int` from fraction.go.  `max`/`min` are Go's
built-ins on signed ints. -/
def Fraction.gcd (x : Fraction) : Int :=
  let a := max x.D x.N
  let b := min x.D x.N
  if b = 0 ∨ a = 0 then 1 else gcdLoopAux b.natAbs a b

/-- `func (n *Fraction) Simplify()` from fraction.go, as a function on the
value: divide both fields by `gcd()` (Go's truncated division), then flip
both signs when the denominator is negative. -/
def Fraction.Simplify (x : Fraction) : Fraction :=
  let f := x.gcd
  let d := Int.tdiv x.D f
  let n := Int.tdiv x.N f
  if d < 0 then ⟨-n, -d⟩ else ⟨n, d⟩

/-- `func Add(a, b Fraction) Fraction`. -/
def Fraction.Add (a b : Fraction) : Fraction :=
  Fraction.Simplify ⟨a.N * b.D + a.D * b.N, a.D * b.D⟩

/-- `func Sub(a, b Fraction) Fraction`. -/
def Fraction.Sub (a b : Fraction) : Fraction :=
  Fraction.Simplify ⟨a.N * b.D - b.N * a.D, a.D * b.D⟩

/-- `func Mul(a, b Fraction) Fraction`. -/
def Fraction.Mul (a b : Fraction) : Fraction :=
  Fraction.Simplify ⟨a.N * b.N, a.D * b.D⟩

/-- `func Div(a, b Fraction) Fraction`. -/
def Fraction.Div (a b : Fraction) : Fraction :=
  Fraction.Simplify ⟨a.N * b.D, a.D * b.N⟩

/-- `func Neg(a Fraction) Fraction  { res = Mul(a, Fraction{-1, 1}) }`. -/
def Fraction.Neg (a : Fraction) : Fraction :=
  Fraction.Mul a ⟨-1, 1⟩

/-- The exact rational value `N/D` represented by a `Fraction`
(junk, namely `0`, when `D = 0`). -/
def Fraction.val (x : Fraction) : ℚ := (x.N : ℚ) / (x.D : ℚ)

/-! ## Tableau: shallow embedding of tableau/tableau.go -/

/-- `Tableau` mirrors the Go struct; `dirtX`/`dirtY` are the column/row
pivot masks. -/
structure Tableau where
  table : List (List Fraction)
  dirtX : List Bool
  dirtY : List Bool
  rowNames : List String
  colNames : List String
  isMaximization : Bool
deriving DecidableEq, Repr

namespace Tableau

/-- `len(t.Table)` — the number of rows `m`. -/
def rows (t : Tableau) : Nat := t.table.length

/-- `len(t.Table[0])` — the number of columns `n`. -/
def cols (t : Tableau) : Nat := (t.table.headD []).length

/-- `t.Table[i][j]`.  Out-of-range access (which would panic in Go) yields
the harmless default `{0, 0}`; every claim constrains indices to be in range. -/
def entry (t : Tableau) (i j : Nat) : Fraction := (t.table.getD i []).getD j ⟨0, 0⟩

/-- `t.dirtX[j]` (out of range defaults to `false`). -/
def dx (t : Tableau) (j : Nat) : Bool := t.dirtX.getD j false

/-- `t.dirtY[i]` (out of range defaults to `false`). -/
def dy (t : Tableau) (i : Nat) : Bool := t.dirtY.getD i false

/-- `func (t *Tableau) Init(rows, cols int)`.  Go's `make` fills the grid
with the zero value `Fraction{0, 0}`.  The label loops write `s1..s(rows-1)`
and then index `rows-1` gets `"F"` (resp. `-x1..` and `"const"`); each index
is written once, captured here as one conditional per index. -/
def Init (rows cols : Nat) : Tableau :=
  { table := List.replicate rows (List.replicate cols ⟨0, 0⟩)
    dirtX := List.replicate cols false
    dirtY := List.replicate rows false
    rowNames := (List.range rows).map
      (fun i => if i = rows - 1 then "F" else "s" ++ toString (i + 1))
    colNames := (List.range cols).map
      (fun j => if j = cols - 1 then "const" else "-x" ++ toString (j + 1))
    isMaximization := true }

/-- `func IsPivotValid(r, s int) bool`. -/
def IsPivotValid (r s : Int) : Bool := decide (0 ≤ r) && decide (0 ≤ s)

/-- One step of the entering-column scan in `Pivot` (the loop body for
column `j`), acting on the accumulator `(s, pivotValue)`. -/
def enterStep (t : Tableau) (acc : Int × Fraction) (j : Nat) : Int × Fraction :=
  if t.dx j = false then
    if t.isMaximization = true ∧ (t.entry (t.rows - 1) j).N < 0 then
      if acc.1 = -1 ∨ (t.entry (t.rows - 1) j).N < acc.2.N
        then ((j : Int), t.entry (t.rows - 1) j) else acc
    else if t.isMaximization = false ∧ 0 < (t.entry (t.rows - 1) j).N then
      if acc.1 = -1 ∨ acc.2.N < (t.entry (t.rows - 1) j).N
        then ((j : Int), t.entry (t.rows - 1) j) else acc
    else acc
  else acc

/-- The entering-column scan of `Pivot` (`for j := 0; j < n-1; j++`),
started with `s = -1`, `pivotValue = Fraction{0, 1}`. -/
def enterScan (t : Tableau) : Int × Fraction :=
  (List.range (t.cols - 1)).foldl t.enterStep (-1, ⟨0, 1⟩)

/-- One step of the minimum-ratio scan in `Pivot` (the loop body for
row `i`). -/
def ratioStep (t : Tableau) (s : Nat) (acc : Int × Fraction) (i : Nat) : Int × Fraction :=
  if t.dy i = false ∧ 0 < (t.entry i s).N then
    let ratio := (t.entry i (t.cols - 1)).Div (t.entry i s)
    if acc.1 = -1 ∨ (0 < ratio.N ∧ (acc.2.N ≤ 0 ∨ ratio.N * acc.2.D < acc.2.N * ratio.D))
      then ((i : Int), ratio) else acc
  else acc

/-- The leaving-row scan of `Pivot` (`for i := 0; i < m-1; i++`), started
with `r = -1` and `minRatio = Fraction{0, 0}` ("infinity"). -/
def ratioScan (t : Tableau) (s : Nat) : Int × Fraction :=
  (List.range (t.rows - 1)).foldl (t.ratioStep s) (-1, ⟨0, 0⟩)

/-- `func (t *Tableau) Pivot() (int, int)` (console printing dropped). -/
def Pivot (t : Tableau) : Int × Int :=
  let s := t.enterScan.1
  if s = -1 then (-1, -1)
  else
    let r := (t.ratioScan s.toNat).1
    if r = -1 then (-1, -1) else (r, s)

/-- The first loop of `PivotForFeasibility`: the first row in `0..m-2` with
negative RHS numerator and unmasked.  Go's `break` is modelled by the
accumulator keeping its first hit. -/
def pffRow (t : Tableau) : Int :=
  (List.range (t.rows - 1)).foldl
    (fun r i =>
      if r = -1 ∧ (t.entry i (t.cols - 1)).N < 0 ∧ t.dy i = false then (i : Int) else r)
    (-1)

/-- One step of the column scan of `PivotForFeasibility` in row `r`. -/
def pffColStep (t : Tableau) (r : Nat) (acc : Int × Fraction) (j : Nat) : Int × Fraction :=
  if (t.entry r j).N < 0 ∧ t.dx j = false then
    if acc.1 = -1 ∨ (t.entry r j).N < acc.2.N then ((j : Int), t.entry r j) else acc
  else acc

/-- The column scan of `PivotForFeasibility`, started with `s = -1`,
`mostNegative = Fraction{0, 1}`. -/
def pffColScan (t : Tableau) (r : Nat) : Int × Fraction :=
  (List.range (t.cols - 1)).foldl (t.pffColStep r) (-1, ⟨0, 1⟩)

/-- `func (t *Tableau) PivotForFeasibility() (int, int)`.  Note that when a
row is found but no column qualifies, Go returns `(r, -1)`. -/
def PivotForFeasibility (t : Tableau) : Int × Int :=
  let r := t.pffRow
  if r = -1 then (-1, -1)
  else (r, (t.pffColScan r.toNat).1)

/-- `func fillElement(a Tableau, i, j, r, s int) fr.Fraction`. -/
def fillElement (a : Tableau) (i j r s : Nat) : Fraction :=
  let pivotElement := a.entry r s
  let term1 := (a.entry i j).Mul pivotElement
  let term2 := (a.entry i s).Mul (a.entry r j)
  (term1.Sub term2).Div pivotElement

/-- The value `Transform` stores at cell `(i, j)` of the new tableau.  In
the Go code every cell of the copy `b` is assigned exactly once, always
computed from the unmodified old tableau `t`; the case split reproduces
which assignment hits each cell. -/
def transformCell (t : Tableau) (r s i j : Nat) : Fraction :=
  if i = r ∧ j = s then Fraction.Div ⟨1, 1⟩ (t.entry r s)
  else if i = r then (t.entry r j).Div (t.entry r s)
  else if j = s then ((t.entry i s).Div (t.entry r s)).Neg
  else fillElement t i j r s

/-- `func (t Tableau) Transform(r, s int) Tableau`.  The loop bounds are
`len(t.Table)` rows by `len(t.Table[0])` columns, exactly Go's; the final
statement swaps `RowNames[r]` and `ColNames[s]` simultaneously. -/
def Transform (t : Tableau) (r s : Nat) : Tableau :=
  { table := (List.range t.rows).map
      (fun i => (List.range t.cols).map (fun j => t.transformCell r s i j))
    dirtX := t.dirtX.set s true
    dirtY := t.dirtY.set r true
    rowNames := t.rowNames.set r (t.colNames.getD s "")
    colNames := t.colNames.set s (t.rowNames.getD r "")
    isMaximization := t.isMaximization }

/-- `func (a *Tableau) IsFeasible() bool`: no constraint row (rows `0..m-2`)
has a negative RHS numerator. -/
def IsFeasible (t : Tableau) : Bool :=
  (List.range (t.rows - 1)).all (fun i => !decide ((t.entry i (t.cols - 1)).N < 0))

/-- `func (a *Tableau) IsOptimal() bool`. -/
def IsOptimal (t : Tableau) : Bool :=
  (List.range (t.cols - 1)).all (fun j =>
    !decide ((t.isMaximization = true ∧ (t.entry (t.rows - 1) j).N < 0) ∨
      (t.isMaximization = false ∧ 0 < (t.entry (t.rows - 1) j).N)))

/-- The `MakeFeasible` loop.  Go counts iterations `1, 2, …` and returns
`false` right after the transform that moves the counter past 20; writing
`fuel = 20 - iteration` (the number of pivots after which the loop may still
continue) gives this structural recursion.  At `fuel = 0` Go either exits
with `true` (feasible), or performs one last transform (valid pivot) or none
(invalid pivot) and returns `false` either way — Boolean result `t.IsFeasible`. -/
def MakeFeasibleAux : Nat → Tableau → Bool
  | 0, t => t.IsFeasible
  | fuel + 1, t =>
    if t.IsFeasible then true
    else if IsPivotValid t.PivotForFeasibility.1 t.PivotForFeasibility.2 then
      MakeFeasibleAux fuel
        (t.Transform t.PivotForFeasibility.1.toNat t.PivotForFeasibility.2.toNat)
    else false

/-- `func (t *Tableau) MakeFeasible() bool` (console printing dropped);
the Go iteration counter starts at 1, so the initial fuel is `20 - 1 = 19`. -/
def MakeFeasible (t : Tableau) : Bool := MakeFeasibleAux 19 t

/-- The successive tableaus `MakeFeasible` works through:
`feasIter t k` is the tableau before the `(k+1)`-st feasibility pivot. -/
def feasIter (t : Tableau) : Nat → Tableau
  | 0 => t
  | k + 1 =>
    let t' := feasIter t k
    t'.Transform t'.PivotForFeasibility.1.toNat t'.PivotForFeasibility.2.toNat

end Tableau

/-- Go's `map[string]fr.Fraction`, modelled as a lookup function. -/
def SolMap : Type := String → Option Fraction

/-- Map insertion; overwrites an existing binding like Go's `m[k] = v`. -/
def solInsert (m : SolMap) (k : String) (v : Fraction) : SolMap :=
  fun x => if x = k then some v else m x

namespace Tableau

/-- `func (a *Tableau) GetSolution() map[string]fr.Fraction`.  The inner
`for j` loop of the row pass re-inserts the same (key, value) pair `n-1`
times, exactly as in the source. -/
def GetSolution (t : Tableau) : SolMap :=
  let m := t.rows
  let n := t.cols
  let sol : SolMap := solInsert (fun _ => none) "objective" (t.entry (m - 1) (n - 1))
  let sol := (List.range (m - 1)).foldl
    (fun acc i => (List.range (n - 1)).foldl
      (fun acc2 _ => solInsert acc2 (t.rowNames.getD i "") (t.entry i (n - 1))) acc)
    sol
  (List.range (n - 1)).foldl
    (fun acc j =>
      if acc (t.colNames.getD j "") = none
        then solInsert acc (t.colNames.getD j "") ⟨0, 1⟩ else acc)
    sol

/-- Well-formedness: the grid is an `m × n` rectangle and the masks and
label lists have matching lengths. -/
def WF (t : Tableau) (m n : Nat) : Prop :=
  t.table.length = m ∧ (∀ row ∈ t.table, row.length = n) ∧
    t.dirtY.length = m ∧ t.dirtX.length = n ∧
    t.rowNames.length = m ∧ t.colNames.length = n

/-- All entries are genuine rationals: positive denominators. -/
def DPos (t : Tableau) : Prop := ∀ row ∈ t.table, ∀ f ∈ row, 0 < f.D

/-- All entries are reduced rationals with positive denominators (the
hypothesis of claims C2 and C3). -/
def Reduced (t : Tableau) : Prop :=
  ∀ row ∈ t.table, ∀ f ∈ row, 0 < f.D ∧ Nat.gcd f.N.natAbs f.D.natAbs = 1

end Tableau

/-! ## Cross-multiplication order on fractions -/

/-- `x ≤ y` as rationals, by cross multiplication (the comparison the ratio
test performs); faithful to the values when both denominators are positive. -/
abbrev valLe (x y : Fraction) : Prop := x.N * y.D ≤ y.N * x.D

/-- `x < y` as rationals, by cross multiplication. -/
abbrev valLt (x y : Fraction) : Prop := x.N * y.D < y.N * x.D

namespace Tableau

/-- Row `i` qualifies in the first loop of `PivotForFeasibility`:
negative RHS numerator and unmasked. -/
def qualPR (t : Tableau) (i : Nat) : Prop :=
  (t.entry i (t.cols - 1)).N < 0 ∧ t.dy i = false

/-- Column `j` qualifies in the column scan of `PivotForFeasibility` on
row `r`: negative numerator and unmasked. -/
def qualPC (t : Tableau) (r j : Nat) : Prop :=
  (t.entry r j).N < 0 ∧ t.dx j = false

/-- Invariant of the `PivotForFeasibility` column fold after the first `k`
columns: either nothing qualified yet, or the accumulator holds the first
column attaining the minimal numerator among qualifying columns so far. -/
def pffColInv (t : Tableau) (r k : Nat) (acc : Int × Fraction) : Prop :=
  (acc.1 = -1 ∧ ∀ j < k, ¬t.qualPC r j) ∨
  (∃ js : Nat, acc.1 = (js : Int) ∧ js < k ∧ t.qualPC r js ∧ acc.2 = t.entry r js ∧
    (∀ j < k, t.qualPC r j → (t.entry r js).N ≤ (t.entry r j).N) ∧
    ∀ j < js, t.qualPC r j → (t.entry r js).N < (t.entry r j).N)

/-- Column `j` qualifies as entering column in `Pivot`: unmasked, and the
objective-row numerator is negative (maximizing) or positive (minimizing). -/
def qualE (t : Tableau) (j : Nat) : Prop :=
  t.dx j = false ∧ ((t.isMaximization = true ∧ (t.entry (t.rows - 1) j).N < 0) ∨
    (t.isMaximization = false ∧ 0 < (t.entry (t.rows - 1) j).N))

/-- Selection key for the entering column: the objective-row numerator when
maximizing, its negation when minimizing — so a smaller key is "better" in
both senses ("most negative" resp. "most positive" numerator). -/
def keyE (t : Tableau) (j : Nat) : Int :=
  if t.isMaximization = true then (t.entry (t.rows - 1) j).N
  else -(t.entry (t.rows - 1) j).N

/-- Invariant of the entering-column fold after the first `k` columns. -/
def enterInv (t : Tableau) (k : Nat) (acc : Int × Fraction) : Prop :=
  (acc.1 = -1 ∧ ∀ j < k, ¬t.qualE j) ∨
  (∃ js : Nat, acc.1 = (js : Int) ∧ js < k ∧ t.qualE js ∧
    acc.2 = t.entry (t.rows - 1) js ∧
    (∀ j < k, t.qualE j → t.keyE js ≤ t.keyE j) ∧
    ∀ j < js, t.qualE j → t.keyE js < t.keyE j)

/-- Row `i` qualifies in the ratio test for entering column `s`: unmasked
and with strictly positive numerator in column `s`. -/
def qualR (t : Tableau) (s i : Nat) : Prop :=
  t.dy i = false ∧ 0 < (t.entry i s).N

/-- The ratio `RHS(i) / entry(i, s)` computed by the ratio test. -/
def ratioAt (t : Tableau) (s i : Nat) : Fraction :=
  (t.entry i (t.cols - 1)).Div (t.entry i s)

/-- Invariant of the ratio-test fold after the first `k` rows: nothing
qualified yet, or the accumulator holds the first row attaining the minimal
positive ratio so far, or — when no qualifying row so far has a positive
ratio — the first qualifying row. -/
def ratioInv (t : Tableau) (s k : Nat) (acc : Int × Fraction) : Prop :=
  (acc.1 = -1 ∧ ∀ i < k, ¬t.qualR s i) ∨
  (∃ ri : Nat, acc.1 = (ri : Int) ∧ ri < k ∧ t.qualR s ri ∧ acc.2 = t.ratioAt s ri ∧
    ((0 < (t.ratioAt s ri).N ∧
      (∀ i < k, t.qualR s i → 0 < (t.ratioAt s i).N →
        valLe (t.ratioAt s ri) (t.ratioAt s i)) ∧
      (∀ i < ri, t.qualR s i → 0 < (t.ratioAt s i).N →
        valLt (t.ratioAt s ri) (t.ratioAt s i))) ∨
    ((t.ratioAt s ri).N ≤ 0 ∧ (∀ i < k, t.qualR s i → (t.ratioAt s i).N ≤ 0) ∧
      ∀ i < ri, ¬t.qualR s i)))

end Tableau

/-! ## Concrete tableaus used by counterexamples and witnesses -/

/-- 2 × 2 maximization tableau `x1 ≤ 4`, objective `−2·x1`;
its unique pivot is `(0, 0)` and one pivot reaches optimality. -/
def exT1 : Tableau :=
  { table := [[⟨1, 1⟩, ⟨4, 1⟩], [⟨-2, 1⟩, ⟨0, 1⟩]]
    dirtX := [false, false]
    dirtY := [false, false]
    rowNames := ["s1", "F"]
    colNames := ["-x1", "const"]
    isMaximization := true }

/-- Objective row `[-1/2, -2/5]`: the most negative value is `-1/2`
(column 0) but the most negative numerator is `-2` (column 1). -/
def exT2 : Tableau :=
  { table := [[⟨1, 1⟩, ⟨1, 1⟩, ⟨10, 1⟩], [⟨-1, 2⟩, ⟨-2, 5⟩, ⟨0, 1⟩]]
    dirtX := [false, false, false]
    dirtY := [false, false]
    rowNames := ["s1", "F"]
    colNames := ["-x1", "-x2", "const"]
    isMaximization := true }

/-- Ratio test input with ratios `[0, 5]` in rows 0 and 1. -/
def exT3 : Tableau :=
  { table := [[⟨1, 1⟩, ⟨0, 1⟩], [⟨1, 1⟩, ⟨5, 1⟩], [⟨-1, 1⟩, ⟨0, 1⟩]]
    dirtX := [false, false]
    dirtY := [false, false, false]
    rowNames := ["s1", "s2", "F"]
    colNames := ["-x1", "const"]
    isMaximization := true }

/-- Infeasible row `[-1/2, -2/5 | -1]`: the most negative value among the
row's entries is `-1/2` (column 0), the most negative numerator `-2`
(column 1). -/
def exT5 : Tableau :=
  { table := [[⟨-1, 2⟩, ⟨-2, 5⟩, ⟨-1, 1⟩], [⟨0, 1⟩, ⟨0, 1⟩, ⟨0, 1⟩]]
    dirtX := [false, false, false]
    dirtY := [false, false]
    rowNames := ["s1", "F"]
    colNames := ["-x1", "-x2", "const"]
    isMaximization := true }

/-- An optimal tableau: no negative objective entry. -/
def exTopt : Tableau :=
  { table := [[⟨1, 1⟩, ⟨1, 1⟩], [⟨1, 1⟩, ⟨0, 1⟩]]
    dirtX := [false, false]
    dirtY := [false, false]
    rowNames := ["s1", "F"]
    colNames := ["-x1", "const"]
    isMaximization := true }

/-- An unbounded tableau: column 0 enters (objective entry −1) but no row
has a positive entry in it. -/
def exTunb : Tableau :=
  { table := [[⟨-1, 1⟩, ⟨1, 1⟩], [⟨-1, 1⟩, ⟨0, 1⟩]]
    dirtX := [false, false]
    dirtY := [false, false]
    rowNames := ["s1", "F"]
    colNames := ["-x1", "const"]
    isMaximization := true }

/-- A tableau whose constraint row is labelled `"objective"`, clashing with
`GetSolution`'s reserved key. -/
def exT8 : Tableau :=
  { table := [[⟨1, 1⟩, ⟨5, 1⟩], [⟨2, 1⟩, ⟨7, 1⟩]]
    dirtX := [false, false]
    dirtY := [false, false]
    rowNames := ["objective", "F"]
    colNames := ["-x1", "const"]
    isMaximization := true }

instance (t : Tableau) (m n : Nat) : Decidable (t.WF m n) := by
  unfold Tableau.WF; infer_instance

instance (t : Tableau) : Decidable t.DPos := by
  unfold Tableau.DPos; infer_instance

instance (t : Tableau) : Decidable t.Reduced := by
  unfold Tableau.Reduced; infer_instance

instance (t : Tableau) (j : Nat) : Decidable (t.qualE j) := by
  unfold Tableau.qualE; infer_instance

instance (t : Tableau) (s i : Nat) : Decidable (t.qualR s i) := by
  unfold Tableau.qualR; infer_instance

instance (t : Tableau) (i : Nat) : Decidable (t.qualPR i) := by
  unfold Tableau.qualPR; infer_instance

instance (t : Tableau) (r j : Nat) : Decidable (t.qualPC r j) := by
  unfold Tableau.qualPC; infer_instance

namespace Tableau

/-- Weak invariant of the ratio-test fold (no denominator hypotheses):
the accumulator is `-1` with nothing qualifying, or holds a qualifying row. -/
def ratioInvL (t : Tableau) (s k : Nat) (acc : Int × Fraction) : Prop :=
  (acc.1 = -1 ∧ ∀ i < k, ¬t.qualR s i) ∨
  (∃ ri : Nat, acc.1 = (ri : Int) ∧ ri < k ∧ t.qualR s ri)

end Tableau

/-! ## Theorems -/

/-! ## Arithmetic facts about the embedded Go code -/

theorem natAbs_tmod (a b : Int) : (Int.tmod a b).natAbs = a.natAbs % b.natAbs := by
  cases a <;> cases b <;>
    simp only [Int.tmod, Int.natAbs_neg, Int.natAbs_ofNat, Int.natAbs_negSucc] <;> rfl

theorem natAbs_tmod_lt (a : Int) {b : Int} (hb : b ≠ 0) :
    (Int.tmod a b).natAbs < b.natAbs := by
  rw [natAbs_tmod]
  exact Nat.mod_lt _ (Int.natAbs_pos.mpr hb)

theorem gcdLoopAux_spec :
    ∀ (fuel : Nat) (a b : Int), b ≠ 0 → b.natAbs ≤ fuel →
      gcdLoopAux fuel a b ∣ a ∧ gcdLoopAux fuel a b ∣ b ∧ gcdLoopAux fuel a b ≠ 0 ∧
        ∀ c : Int, c ∣ a → c ∣ b → c ∣ gcdLoopAux fuel a b := by
  intro fuel
  induction fuel with
  | zero =>
    intro a b hb hle
    exact absurd (Nat.le_zero.mp hle) (fun h => hb (Int.natAbs_eq_zero.mp h))
  | succ fuel ih =>
    intro a b hb hle
    have hunfold : gcdLoopAux (fuel + 1) a b =
        if Int.tmod a b = 0 then b else gcdLoopAux fuel b (Int.tmod a b) := rfl
    rw [hunfold]
    by_cases hf : Int.tmod a b = 0
    · rw [if_pos hf]
      exact ⟨Int.dvd_of_tmod_eq_zero hf, dvd_rfl, hb, fun c _ hcb => hcb⟩
    · rw [if_neg hf]
      have hlt : (Int.tmod a b).natAbs < b.natAbs := natAbs_tmod_lt a hb
      have hle' : (Int.tmod a b).natAbs ≤ fuel := by omega
      obtain ⟨h1, h2, h3, h4⟩ := ih b (Int.tmod a b) hf hle'
      have hda : gcdLoopAux fuel b (Int.tmod a b) ∣ a := by
        have hsum : gcdLoopAux fuel b (Int.tmod a b) ∣ b * Int.tdiv a b + Int.tmod a b :=
          dvd_add (h1.mul_right _) h2
        rwa [Int.tdiv_add_tmod] at hsum
      refine ⟨hda, h1, h3, ?_⟩
      intro c hca hcb
      refine h4 c hcb ?_
      rw [Int.tmod_def]
      exact dvd_sub hca (hcb.mul_right _)

theorem Fraction.gcd_spec (x : Fraction) (hN : x.N ≠ 0) (hD : x.D ≠ 0) :
    x.gcd ∣ x.N ∧ x.gcd ∣ x.D ∧ x.gcd ≠ 0 ∧
      x.gcd.natAbs = Nat.gcd x.N.natAbs x.D.natAbs := by
  have hb : min x.D x.N ≠ 0 := by
    rcases le_total x.D x.N with h | h
    · rw [min_eq_left h]; exact hD
    · rw [min_eq_right h]; exact hN
  have ha : max x.D x.N ≠ 0 := by
    rcases le_total x.D x.N with h | h
    · rw [max_eq_right h]; exact hN
    · rw [max_eq_left h]; exact hD
  have hgcd : x.gcd = gcdLoopAux (min x.D x.N).natAbs (max x.D x.N) (min x.D x.N) := by
    unfold Fraction.gcd
    rw [if_neg (by push_neg; exact ⟨hb, ha⟩)]
  obtain ⟨h1, h2, h3, h4⟩ :=
    gcdLoopAux_spec (min x.D x.N).natAbs (max x.D x.N) (min x.D x.N) hb le_rfl
  rw [← hgcd] at h1 h2 h3 h4
  have hdvdN : x.gcd ∣ x.N := by
    rcases le_total x.D x.N with h | h
    · rw [max_eq_right h] at h1; exact h1
    · rw [min_eq_right h] at h2; exact h2
  have hdvdD : x.gcd ∣ x.D := by
    rcases le_total x.D x.N with h | h
    · rw [min_eq_left h] at h2; exact h2
    · rw [max_eq_left h] at h1; exact h1
  refine ⟨hdvdN, hdvdD, h3, ?_⟩
  have hup : x.gcd ∣ (Int.gcd x.N x.D : Int) := Int.dvd_gcd hdvdN hdvdD
  have hdown : (Int.gcd x.N x.D : Int) ∣ x.gcd := by
    have hcN : (Int.gcd x.N x.D : Int) ∣ x.N := Int.gcd_dvd_left
    have hcD : (Int.gcd x.N x.D : Int) ∣ x.D := Int.gcd_dvd_right
    rcases le_total x.D x.N with h | h
    · rw [max_eq_right h, min_eq_left h] at h4; exact h4 _ hcN hcD
    · rw [max_eq_left h, min_eq_right h] at h4; exact h4 _ hcD hcN
  have : x.gcd.natAbs = (Int.gcd x.N x.D : Int).natAbs :=
    Nat.dvd_antisymm (Int.natAbs_dvd_natAbs.mpr hup) (Int.natAbs_dvd_natAbs.mpr hdown)
  simpa [Int.gcd] using this

theorem Fraction.gcd_of_N_eq_zero (x : Fraction) (hN : x.N = 0) : x.gcd = 1 := by
  unfold Fraction.gcd
  rcases lt_trichotomy x.D 0 with h | h | h
  · rw [if_pos]; right; rw [hN]; exact max_eq_right h.le
  · rw [if_pos]; left; rw [hN, h]; simp
  · rw [if_pos]; left; rw [hN]; exact min_eq_right h.le

/-- `Simplify` written out with the `let`s inlined. -/
theorem Fraction.Simplify_def (x : Fraction) :
    x.Simplify = if Int.tdiv x.D x.gcd < 0
      then ⟨-Int.tdiv x.N x.gcd, -Int.tdiv x.D x.gcd⟩
      else ⟨Int.tdiv x.N x.gcd, Int.tdiv x.D x.gcd⟩ := rfl

theorem Fraction.Simplify_of_N_eq_zero (x : Fraction) (hN : x.N = 0) :
    x.Simplify = ⟨0, (x.D.natAbs : Int)⟩ := by
  rw [Fraction.Simplify_def, Fraction.gcd_of_N_eq_zero x hN]
  simp only [Int.tdiv_one, hN, neg_zero]
  by_cases h : x.D < 0
  · rw [if_pos h]
    exact congrArg (Fraction.mk 0) (by omega)
  · rw [if_neg h]
    exact congrArg (Fraction.mk 0) (by omega)

theorem Fraction.Simplify_D_pos (x : Fraction) (hD : x.D ≠ 0) : 0 < x.Simplify.D := by
  by_cases hN : x.N = 0
  · rw [Fraction.Simplify_of_N_eq_zero x hN]
    show (0 : Int) < (x.D.natAbs : Int)
    omega
  · obtain ⟨_, hdvdD, hg, _⟩ := Fraction.gcd_spec x hN hD
    obtain ⟨d1, hd1⟩ := hdvdD
    have htd : Int.tdiv x.D x.gcd = d1 := by rw [hd1]; exact Int.mul_tdiv_cancel_left _ hg
    have hd1ne : d1 ≠ 0 := by rintro rfl; rw [mul_zero] at hd1; exact hD hd1
    rw [Fraction.Simplify_def, htd]
    by_cases h : d1 < 0
    · rw [if_pos h]; show (0 : Int) < -d1; omega
    · rw [if_neg h]; show (0 : Int) < d1; omega

theorem Fraction.Simplify_val (x : Fraction) (hD : x.D ≠ 0) :
    x.Simplify.val = x.val := by
  by_cases hN : x.N = 0
  · rw [Fraction.Simplify_of_N_eq_zero x hN]
    show ((0 : Int) : ℚ) / ((x.D.natAbs : Int) : ℚ) = (x.N : ℚ) / (x.D : ℚ)
    rw [hN]
    norm_num
  · obtain ⟨hdvdN, hdvdD, hg, _⟩ := Fraction.gcd_spec x hN hD
    obtain ⟨n1, hn1⟩ := hdvdN
    obtain ⟨d1, hd1⟩ := hdvdD
    have htn : Int.tdiv x.N x.gcd = n1 := by rw [hn1]; exact Int.mul_tdiv_cancel_left _ hg
    have htd : Int.tdiv x.D x.gcd = d1 := by rw [hd1]; exact Int.mul_tdiv_cancel_left _ hg
    have hgQ : (x.gcd : ℚ) ≠ 0 := Int.cast_ne_zero.mpr hg
    have key : ((n1 : ℚ) / (d1 : ℚ)) = x.val := by
      unfold Fraction.val
      rw [hn1, hd1]
      push_cast
      rw [mul_div_mul_left _ _ hgQ]
    rw [Fraction.Simplify_def, htn, htd]
    by_cases h : d1 < 0
    · rw [if_pos h]
      show ((-n1 : Int) : ℚ) / ((-d1 : Int) : ℚ) = x.val
      push_cast
      rw [neg_div_neg_eq]
      exact key
    · rw [if_neg h]
      exact key

theorem Fraction.Simplify_reduced (x : Fraction) (hN : x.N ≠ 0) (hD : x.D ≠ 0) :
    Nat.gcd x.Simplify.N.natAbs x.Simplify.D.natAbs = 1 := by
  obtain ⟨hdvdN, hdvdD, hg, habs⟩ := Fraction.gcd_spec x hN hD
  obtain ⟨n1, hn1⟩ := hdvdN
  obtain ⟨d1, hd1⟩ := hdvdD
  have htn : Int.tdiv x.N x.gcd = n1 := by rw [hn1]; exact Int.mul_tdiv_cancel_left _ hg
  have htd : Int.tdiv x.D x.gcd = d1 := by rw [hd1]; exact Int.mul_tdiv_cancel_left _ hg
  have hGpos : 0 < Nat.gcd x.N.natAbs x.D.natAbs :=
    Nat.gcd_pos_of_pos_left _ (Int.natAbs_pos.mpr hN)
  have hNabs : x.N.natAbs = Nat.gcd x.N.natAbs x.D.natAbs * n1.natAbs := by
    conv_lhs => rw [hn1]
    rw [Int.natAbs_mul, habs]
  have hDabs : x.D.natAbs = Nat.gcd x.N.natAbs x.D.natAbs * d1.natAbs := by
    conv_lhs => rw [hd1]
    rw [Int.natAbs_mul, habs]
  have hn_abs : n1.natAbs = x.N.natAbs / Nat.gcd x.N.natAbs x.D.natAbs :=
    (Nat.div_eq_of_eq_mul_right hGpos hNabs).symm
  have hd_abs : d1.natAbs = x.D.natAbs / Nat.gcd x.N.natAbs x.D.natAbs :=
    (Nat.div_eq_of_eq_mul_right hGpos hDabs).symm
  have hcop : Nat.Coprime (x.N.natAbs / Nat.gcd x.N.natAbs x.D.natAbs)
      (x.D.natAbs / Nat.gcd x.N.natAbs x.D.natAbs) :=
    Nat.coprime_div_gcd_div_gcd hGpos
  rw [Fraction.Simplify_def, htn, htd]
  by_cases h : d1 < 0
  · rw [if_pos h]
    show Nat.gcd (-n1).natAbs (-d1).natAbs = 1
    rw [Int.natAbs_neg, Int.natAbs_neg, hn_abs, hd_abs]
    exact hcop
  · rw [if_neg h]
    show Nat.gcd n1.natAbs d1.natAbs = 1
    rw [hn_abs, hd_abs]
    exact hcop

/-! ## Value lemmas for the fraction operations -/

theorem Fraction.Mul_D_pos (a b : Fraction) (ha : a.D ≠ 0) (hb : b.D ≠ 0) :
    0 < (a.Mul b).D :=
  Fraction.Simplify_D_pos _ (by simpa using mul_ne_zero ha hb)

theorem Fraction.Mul_val (a b : Fraction) (ha : a.D ≠ 0) (hb : b.D ≠ 0) :
    (a.Mul b).val = a.val * b.val := by
  unfold Fraction.Mul
  rw [Fraction.Simplify_val _ (by simpa using mul_ne_zero ha hb)]
  unfold Fraction.val
  push_cast
  rw [div_mul_div_comm]

theorem Fraction.Sub_D_pos (a b : Fraction) (ha : a.D ≠ 0) (hb : b.D ≠ 0) :
    0 < (a.Sub b).D :=
  Fraction.Simplify_D_pos _ (by simpa using mul_ne_zero ha hb)

theorem Fraction.Sub_val (a b : Fraction) (ha : a.D ≠ 0) (hb : b.D ≠ 0) :
    (a.Sub b).val = a.val - b.val := by
  unfold Fraction.Sub
  rw [Fraction.Simplify_val _ (by simpa using mul_ne_zero ha hb)]
  unfold Fraction.val
  have haQ : (a.D : ℚ) ≠ 0 := Int.cast_ne_zero.mpr ha
  have hbQ : (b.D : ℚ) ≠ 0 := Int.cast_ne_zero.mpr hb
  field_simp
  ring

theorem Fraction.Div_D_pos (a b : Fraction) (ha : a.D ≠ 0) (hb : b.N ≠ 0) :
    0 < (a.Div b).D :=
  Fraction.Simplify_D_pos _ (by simpa using mul_ne_zero ha hb)

theorem Fraction.Div_val (a b : Fraction) (ha : a.D ≠ 0) (hbD : b.D ≠ 0)
    (hbN : b.N ≠ 0) : (a.Div b).val = a.val / b.val := by
  unfold Fraction.Div
  rw [Fraction.Simplify_val _ (by simpa using mul_ne_zero ha hbN)]
  unfold Fraction.val
  have haQ : (a.D : ℚ) ≠ 0 := Int.cast_ne_zero.mpr ha
  have hbDQ : (b.D : ℚ) ≠ 0 := Int.cast_ne_zero.mpr hbD
  have hbNQ : (b.N : ℚ) ≠ 0 := Int.cast_ne_zero.mpr hbN
  field_simp

theorem Fraction.Neg_D_pos (a : Fraction) (ha : a.D ≠ 0) : 0 < (a.Neg).D :=
  Fraction.Mul_D_pos a ⟨-1, 1⟩ ha one_ne_zero

theorem Fraction.Neg_val (a : Fraction) (ha : a.D ≠ 0) : (a.Neg).val = -a.val := by
  unfold Fraction.Neg
  rw [Fraction.Mul_val a ⟨-1, 1⟩ ha one_ne_zero]
  unfold Fraction.val
  push_cast
  ring

/-! ## Claim C4 -/

/-- C4 (counterexample): `Simplify` on `0/2` leaves the fraction as `0/2`:
the result is not `0/1` and `gcd(|0|, 2) = 2 ≠ 1`, contradicting the claim
that the pair returned is always reduced with the numerator-zero case
normalised to `0/1`. -/
theorem simplify_zero_num_cex :
    Fraction.Simplify ⟨0, 2⟩ = ⟨0, 2⟩ ∧ Fraction.Simplify ⟨0, 2⟩ ≠ ⟨0, 1⟩ ∧
      Nat.gcd (Fraction.Simplify ⟨0, 2⟩).N.natAbs
        (Fraction.Simplify ⟨0, 2⟩).D.natAbs ≠ 1 := by
  refine ⟨by decide, by decide, by decide⟩

/-- C4 (amended): for every `Fraction` `n/d` with `d ≠ 0`, `Simplify`
produces a pair `(n', d')` with `d' > 0` and `n'/d'` equal to `n/d` as
exact rationals; when `n ≠ 0` the result is reduced, `gcd(|n'|, d') = 1`;
when `n = 0` the result is `0/|d|` (not `0/1` unless `|d| = 1`). -/
theorem simplify_spec (n d : Int) (hd : d ≠ 0) :
    0 < (Fraction.Simplify ⟨n, d⟩).D ∧
      (Fraction.Simplify ⟨n, d⟩).val = Fraction.val ⟨n, d⟩ ∧
      (n ≠ 0 → Nat.gcd (Fraction.Simplify ⟨n, d⟩).N.natAbs
        (Fraction.Simplify ⟨n, d⟩).D.natAbs = 1) ∧
      (n = 0 → Fraction.Simplify ⟨n, d⟩ = ⟨0, (d.natAbs : Int)⟩) :=
  ⟨Fraction.Simplify_D_pos _ hd, Fraction.Simplify_val _ hd,
    fun hn => Fraction.Simplify_reduced _ hn hd,
    fun hn => Fraction.Simplify_of_N_eq_zero _ hn⟩

/-- Witness for C4 at `n = -4`, `d = -6`. -/
theorem simplify_spec_witness :
    (-6 : Int) ≠ 0 ∧
      (0 < (Fraction.Simplify ⟨-4, -6⟩).D ∧
        (Fraction.Simplify ⟨-4, -6⟩).val = Fraction.val ⟨-4, -6⟩ ∧
        ((-4 : Int) ≠ 0 → Nat.gcd (Fraction.Simplify ⟨-4, -6⟩).N.natAbs
          (Fraction.Simplify ⟨-4, -6⟩).D.natAbs = 1) ∧
        ((-4 : Int) = 0 → Fraction.Simplify ⟨-4, -6⟩ = ⟨0, ((-6 : Int).natAbs : Int)⟩)) :=
  ⟨by decide, simplify_spec (-4) (-6) (by decide)⟩

namespace Tableau

/-! ## Access and well-formedness helpers -/

theorem entry_in_range (t : Tableau) {i j : Nat} (h : (t.entry i j).N ≠ 0) :
    i < t.table.length ∧ j < (t.table.getD i []).length := by
  unfold entry at h
  constructor
  · by_contra hi
    push_neg at hi
    rw [List.getD_eq_getElem?_getD t.table i [], List.getElem?_eq_none hi] at h
    simp at h
  · by_contra hj
    push_neg at hj
    rw [List.getD_eq_getElem?_getD (t.table.getD i []), List.getElem?_eq_none hj] at h
    simp at h

theorem entry_mem_table (t : Tableau) {i j : Nat} (hi : i < t.table.length)
    (hj : j < (t.table.getD i []).length) :
    ∃ row ∈ t.table, t.entry i j ∈ row := by
  refine ⟨t.table.getD i [], ?_, ?_⟩
  · rw [List.getD_eq_getElem?_getD, List.getElem?_eq_getElem hi]
    simp only [Option.getD_some]
    exact List.getElem_mem _
  · show (t.table.getD i []).getD j ⟨0, 0⟩ ∈ t.table.getD i []
    rw [List.getD_eq_getElem?_getD (t.table.getD i []), List.getElem?_eq_getElem hj]
    simp only [Option.getD_some]
    exact List.getElem_mem _

theorem DPos.entry_pos {t : Tableau} (hdp : t.DPos) {i j : Nat}
    (hi : i < t.table.length) (hj : j < (t.table.getD i []).length) :
    0 < (t.entry i j).D := by
  obtain ⟨row, hrow, hmem⟩ := entry_mem_table t hi hj
  exact hdp row hrow _ hmem

theorem WF.rows_eq {t : Tableau} {m n : Nat} (hwf : t.WF m n) : t.rows = m := hwf.1

theorem WF.row_len {t : Tableau} {m n : Nat} (hwf : t.WF m n) {i : Nat} (hi : i < m) :
    (t.table.getD i []).length = n := by
  obtain ⟨hlen, hrows, _⟩ := hwf
  have hi' : i < t.table.length := by omega
  rw [List.getD_eq_getElem?_getD, List.getElem?_eq_getElem hi']
  simp only [Option.getD_some]
  exact hrows _ (List.getElem_mem _)

theorem WF.cols_eq {t : Tableau} {m n : Nat} (hwf : t.WF m n) (hm : 1 ≤ m) :
    t.cols = n := by
  have h0 : (t.table.getD 0 []).length = n := hwf.row_len (by omega)
  obtain ⟨hlen, _, _⟩ := hwf
  unfold cols
  cases htab : t.table with
  | nil => rw [htab] at hlen; simp at hlen; omega
  | cons a l => rw [htab] at h0; simpa using h0

theorem WF.entry_D_pos {t : Tableau} {m n : Nat} (hwf : t.WF m n) (hdp : t.DPos)
    {i j : Nat} (hi : i < m) (hj : j < n) : 0 < (t.entry i j).D := by
  have h1 : i < t.table.length := by rw [hwf.1]; omega
  have h2 : j < (t.table.getD i []).length := by rw [hwf.row_len hi]; omega
  exact DPos.entry_pos hdp h1 h2

/-- If the numerator of `entry i j` is nonzero, `(i, j)` is in range of an
`m × n` well-formed tableau. -/
theorem entry_lt_of_N_ne_zero {t : Tableau} {m n : Nat} (hwf : t.WF m n)
    {i j : Nat} (h : (t.entry i j).N ≠ 0) : i < m ∧ j < n := by
  obtain ⟨h1, h2⟩ := entry_in_range t h
  have hi : i < m := by rw [← hwf.1]; exact h1
  exact ⟨hi, by rw [← hwf.row_len hi]; exact h2⟩

end Tableau

theorem valLe_iff {x y : Fraction} (hx : 0 < x.D) (hy : 0 < y.D) :
    valLe x y ↔ x.val ≤ y.val := by
  unfold valLe Fraction.val
  rw [div_le_div_iff (by exact_mod_cast hx) (by exact_mod_cast hy)]
  constructor
  · intro h; exact_mod_cast h
  · intro h; exact_mod_cast h

theorem valLt_iff {x y : Fraction} (hx : 0 < x.D) (hy : 0 < y.D) :
    valLt x y ↔ x.val < y.val := by
  unfold valLt Fraction.val
  rw [div_lt_div_iff (by exact_mod_cast hx) (by exact_mod_cast hy)]
  constructor
  · intro h; exact_mod_cast h
  · intro h; exact_mod_cast h

theorem val_pos_iff {x : Fraction} (hx : 0 < x.D) : 0 < x.val ↔ 0 < x.N := by
  unfold Fraction.val
  rw [div_pos_iff]
  constructor
  · rintro (⟨h, _⟩ | ⟨_, h⟩)
    · exact_mod_cast h
    · exfalso; have : (0 : ℚ) < x.D := by exact_mod_cast hx
      linarith
  · intro h
    left
    exact ⟨by exact_mod_cast h, by exact_mod_cast hx⟩

theorem val_nonpos_iff {x : Fraction} (hx : 0 < x.D) : x.val ≤ 0 ↔ x.N ≤ 0 := by
  rw [← not_lt, ← not_lt, not_iff_not]
  exact val_pos_iff hx

theorem val_neg_iff {x : Fraction} (hx : 0 < x.D) : x.val < 0 ↔ x.N < 0 := by
  unfold Fraction.val
  rw [div_neg_iff]
  constructor
  · rintro (⟨_, h⟩ | ⟨h, _⟩)
    · exfalso; have : (0 : ℚ) < x.D := by exact_mod_cast hx
      linarith
    · exact_mod_cast h
  · intro h
    right
    exact ⟨by exact_mod_cast h, by exact_mod_cast hx⟩

/-! ## Loop characterizations -/

theorem foldl_range_succ {α : Type} (f : α → Nat → α) (init : α) (n : Nat) :
    (List.range (n + 1)).foldl f init = f ((List.range n).foldl f init) n := by
  rw [List.range_succ, List.foldl_append]
  rfl

namespace Tableau

/-- `pffRow` returns `-1` exactly when no constraint row qualifies, and
otherwise the first qualifying row. -/
theorem pffRow_spec (t : Tableau) :
    (t.pffRow = -1 ∧ ∀ i < t.rows - 1, ¬t.qualPR i) ∨
    (∃ ri : Nat, t.pffRow = (ri : Int) ∧ ri < t.rows - 1 ∧ t.qualPR ri ∧
      ∀ i < ri, ¬t.qualPR i) := by
  unfold pffRow
  have hgen : ∀ len : Nat,
      (((List.range len).foldl
          (fun r i =>
            if r = -1 ∧ (t.entry i (t.cols - 1)).N < 0 ∧ t.dy i = false
              then (i : Int) else r) (-1)) = -1 ∧ ∀ i < len, ¬t.qualPR i) ∨
      (∃ ri : Nat, ((List.range len).foldl
          (fun r i =>
            if r = -1 ∧ (t.entry i (t.cols - 1)).N < 0 ∧ t.dy i = false
              then (i : Int) else r) (-1)) = (ri : Int) ∧ ri < len ∧ t.qualPR ri ∧
        ∀ i < ri, ¬t.qualPR i) := by
    intro len
    induction len with
    | zero => left; exact ⟨rfl, by omega⟩
    | succ len ih =>
      rw [foldl_range_succ]
      rcases ih with ⟨h1, h2⟩ | ⟨ri, h1, h2, h3, h4⟩
      · rw [h1]
        by_cases hq : t.qualPR len
        · rw [if_pos ⟨rfl, hq.1, hq.2⟩]
          right
          exact ⟨len, rfl, by omega, hq, h2⟩
        · rw [if_neg (fun hc => hq ⟨hc.2.1, hc.2.2⟩)]
          left
          refine ⟨rfl, fun i hi hqi => ?_⟩
          by_cases hik : i = len
          · exact hq (hik ▸ hqi)
          · exact h2 i (by omega) hqi
      · rw [h1]
        rw [if_neg (fun hc => by omega)]
        right
        exact ⟨ri, rfl, by omega, h3, h4⟩
  exact hgen (t.rows - 1)

theorem pffColStep_inv (t : Tableau) (r k : Nat) (acc : Int × Fraction)
    (h : t.pffColInv r k acc) : t.pffColInv r (k + 1) (t.pffColStep r acc k) := by
  unfold pffColStep
  by_cases hq : (t.entry r k).N < 0 ∧ t.dx k = false
  · rw [if_pos hq]
    rcases h with ⟨h1, h2⟩ | ⟨js, h1, h2, h3, h4, h5, h6⟩
    · rw [if_pos (Or.inl h1)]
      right
      refine ⟨k, rfl, by omega, hq, rfl, ?_, ?_⟩
      · intro j hj hqj
        by_cases hjk : j = k
        · subst hjk; exact le_refl _
        · exact absurd hqj (h2 j (by omega))
      · intro j hj hqj
        exact absurd hqj (h2 j (by omega))
    · have hne : ¬acc.1 = -1 := by rw [h1]; omega
      by_cases hlt : (t.entry r k).N < acc.2.N
      · rw [if_pos (Or.inr hlt)]
        rw [h4] at hlt
        right
        refine ⟨k, rfl, by omega, hq, rfl, ?_, ?_⟩
        · intro j hj hqj
          by_cases hjk : j = k
          · subst hjk; exact le_refl _
          · exact le_trans hlt.le (h5 j (by omega) hqj)
        · intro j hj hqj
          exact lt_of_lt_of_le hlt (h5 j (by omega) hqj)
      · rw [if_neg (fun hc => hc.elim hne hlt)]
        rw [h4] at hlt
        right
        refine ⟨js, h1, by omega, h3, h4, ?_, h6⟩
        intro j hj hqj
        by_cases hjk : j = k
        · subst hjk; omega
        · exact h5 j (by omega) hqj
  · rw [if_neg hq]
    rcases h with ⟨h1, h2⟩ | ⟨js, h1, h2, h3, h4, h5, h6⟩
    · left
      refine ⟨h1, fun j hj hqj => ?_⟩
      by_cases hjk : j = k
      · exact hq (hjk ▸ hqj)
      · exact h2 j (by omega) hqj
    · right
      refine ⟨js, h1, by omega, h3, h4, ?_, h6⟩
      intro j hj hqj
      by_cases hjk : j = k
      · exact absurd (hjk ▸ hqj) hq
      · exact h5 j (by omega) hqj

theorem pffColScan_inv (t : Tableau) (r : Nat) :
    t.pffColInv r (t.cols - 1) (t.pffColScan r) := by
  unfold pffColScan
  generalize t.cols - 1 = len
  induction len with
  | zero => left; exact ⟨rfl, by omega⟩
  | succ len ih =>
    rw [foldl_range_succ]
    exact t.pffColStep_inv r len _ ih

theorem enterStep_inv (t : Tableau) (k : Nat) (acc : Int × Fraction)
    (h : t.enterInv k acc) : t.enterInv (k + 1) (t.enterStep acc k) := by
  have hnotq_keep : ¬t.qualE k → t.enterInv (k + 1) acc := by
    intro hq
    rcases h with ⟨h1, h2⟩ | ⟨js, h1, h2, h3, h4, h5, h6⟩
    · left
      refine ⟨h1, fun j hj hqj => ?_⟩
      by_cases hjk : j = k
      · exact hq (hjk ▸ hqj)
      · exact h2 j (by omega) hqj
    · right
      refine ⟨js, h1, by omega, h3, h4, ?_, h6⟩
      intro j hj hqj
      by_cases hjk : j = k
      · exact absurd (hjk ▸ hqj) hq
      · exact h5 j (by omega) hqj
  have hq_new : t.qualE k →
      t.enterInv (k + 1) ((k : Int), t.entry (t.rows - 1) k) →
      True := fun _ _ => trivial
  unfold enterStep
  by_cases hdx : t.dx k = false
  case neg =>
    rw [if_neg hdx]
    exact hnotq_keep (fun hk => hdx hk.1)
  case pos =>
    rw [if_pos hdx]
    by_cases hmax : t.isMaximization = true
    · by_cases hneg : (t.entry (t.rows - 1) k).N < 0
      · rw [if_pos ⟨hmax, hneg⟩]
        have hqk : t.qualE k := ⟨hdx, Or.inl ⟨hmax, hneg⟩⟩
        have hkey : ∀ j, t.keyE j = (t.entry (t.rows - 1) j).N := by
          intro j; unfold keyE; rw [if_pos hmax]
        rcases h with ⟨h1, h2⟩ | ⟨js, h1, h2, h3, h4, h5, h6⟩
        · rw [if_pos (Or.inl h1)]
          right
          refine ⟨k, rfl, by omega, hqk, rfl, ?_, ?_⟩
          · intro j hj hqj
            by_cases hjk : j = k
            · subst hjk; exact le_refl _
            · exact absurd hqj (h2 j (by omega))
          · intro j hj hqj
            exact absurd hqj (h2 j (by omega))
        · have hne : ¬acc.1 = -1 := by rw [h1]; omega
          by_cases hlt : (t.entry (t.rows - 1) k).N < acc.2.N
          · rw [if_pos (Or.inr hlt)]
            rw [h4] at hlt
            right
            refine ⟨k, rfl, by omega, hqk, rfl, ?_, ?_⟩
            · intro j hj hqj
              by_cases hjk : j = k
              · subst hjk; exact le_refl _
              · have := h5 j (by omega) hqj
                simp only [hkey] at this ⊢
                omega
            · intro j hj hqj
              have := h5 j (by omega) hqj
              simp only [hkey] at this ⊢
              omega
          · rw [if_neg (fun hc => hc.elim hne hlt)]
            rw [h4] at hlt
            right
            refine ⟨js, h1, by omega, h3, h4, ?_, h6⟩
            intro j hj hqj
            by_cases hjk : j = k
            · subst hjk
              simp only [hkey]
              omega
            · exact h5 j (by omega) hqj
      · rw [if_neg (fun hc => hneg hc.2)]
        have hmf : ¬(t.isMaximization = false ∧ 0 < (t.entry (t.rows - 1) k).N) := by
          rintro ⟨hf, _⟩; rw [hmax] at hf; exact Bool.noConfusion hf
        rw [if_neg hmf]
        refine hnotq_keep (fun hk => ?_)
        rcases hk.2 with ⟨_, hn⟩ | ⟨hf, _⟩
        · exact hneg hn
        · rw [hmax] at hf; exact Bool.noConfusion hf
    · have hfalse : t.isMaximization = false := by
        cases hb : t.isMaximization
        · rfl
        · exact absurd hb hmax
      have hm1 : ¬(t.isMaximization = true ∧ (t.entry (t.rows - 1) k).N < 0) :=
        fun hc => hmax hc.1
      rw [if_neg hm1]
      by_cases hpos : 0 < (t.entry (t.rows - 1) k).N
      · rw [if_pos ⟨hfalse, hpos⟩]
        have hqk : t.qualE k := ⟨hdx, Or.inr ⟨hfalse, hpos⟩⟩
        have hkey : ∀ j, t.keyE j = -(t.entry (t.rows - 1) j).N := by
          intro j; unfold keyE; rw [if_neg hmax]
        rcases h with ⟨h1, h2⟩ | ⟨js, h1, h2, h3, h4, h5, h6⟩
        · rw [if_pos (Or.inl h1)]
          right
          refine ⟨k, rfl, by omega, hqk, rfl, ?_, ?_⟩
          · intro j hj hqj
            by_cases hjk : j = k
            · subst hjk; exact le_refl _
            · exact absurd hqj (h2 j (by omega))
          · intro j hj hqj
            exact absurd hqj (h2 j (by omega))
        · have hne : ¬acc.1 = -1 := by rw [h1]; omega
          by_cases hlt : acc.2.N < (t.entry (t.rows - 1) k).N
          · rw [if_pos (Or.inr hlt)]
            rw [h4] at hlt
            right
            refine ⟨k, rfl, by omega, hqk, rfl, ?_, ?_⟩
            · intro j hj hqj
              by_cases hjk : j = k
              · subst hjk; exact le_refl _
              · have := h5 j (by omega) hqj
                simp only [hkey] at this ⊢
                omega
            · intro j hj hqj
              have := h5 j (by omega) hqj
              simp only [hkey] at this ⊢
              omega
          · rw [if_neg (fun hc => hc.elim hne hlt)]
            rw [h4] at hlt
            right
            refine ⟨js, h1, by omega, h3, h4, ?_, h6⟩
            intro j hj hqj
            by_cases hjk : j = k
            · subst hjk
              simp only [hkey]
              omega
            · exact h5 j (by omega) hqj
      · rw [if_neg (fun hc => hpos hc.2)]
        refine hnotq_keep (fun hk => ?_)
        rcases hk.2 with ⟨ht, _⟩ | ⟨_, hn⟩
        · exact hmax ht
        · exact hpos hn

theorem enterScan_inv (t : Tableau) : t.enterInv (t.cols - 1) t.enterScan := by
  unfold enterScan
  generalize t.cols - 1 = len
  induction len with
  | zero => left; exact ⟨rfl, by omega⟩
  | succ len ih =>
    rw [foldl_range_succ]
    exact t.enterStep_inv len _ ih

theorem ratioStep_inv (t : Tableau) (s : Nat)
    (hD : ∀ i, t.qualR s i → 0 < (t.ratioAt s i).D)
    (k : Nat) (acc : Int × Fraction) (h : t.ratioInv s k acc) :
    t.ratioInv s (k + 1) (t.ratioStep s acc k) := by
  unfold ratioStep
  by_cases hq : t.dy k = false ∧ 0 < (t.entry k s).N
  case neg =>
    rw [if_neg hq]
    rcases h with ⟨h1, h2⟩ | ⟨ri, h1, h2, h3, h4, hdisj⟩
    · left
      refine ⟨h1, fun i hi hqi => ?_⟩
      by_cases hik : i = k
      · exact hq (hik ▸ hqi)
      · exact h2 i (by omega) hqi
    · right
      refine ⟨ri, h1, by omega, h3, h4, ?_⟩
      rcases hdisj with ⟨hpos, hmin, hfirst⟩ | ⟨hnp, hall, hnone⟩
      · left
        refine ⟨hpos, ?_, hfirst⟩
        intro i hi hqi hpi
        by_cases hik : i = k
        · exact absurd (hik ▸ hqi) hq
        · exact hmin i (by omega) hqi hpi
      · right
        refine ⟨hnp, ?_, hnone⟩
        intro i hi hqi
        by_cases hik : i = k
        · exact absurd (hik ▸ hqi) hq
        · exact hall i (by omega) hqi
  case pos =>
    rw [if_pos hq]
    have hqk : t.qualR s k := hq
    show t.ratioInv s (k + 1)
      (if acc.1 = -1 ∨ (0 < (t.ratioAt s k).N ∧
          (acc.2.N ≤ 0 ∨ valLt (t.ratioAt s k) acc.2))
        then ((k : Int), t.ratioAt s k) else acc)
    rcases h with ⟨h1, h2⟩ | ⟨ri, h1, h2, h3, h4, hdisj⟩
    · rw [if_pos (Or.inl h1)]
      right
      refine ⟨k, rfl, by omega, hqk, rfl, ?_⟩
      by_cases hkpos : 0 < (t.ratioAt s k).N
      · left
        refine ⟨hkpos, ?_, ?_⟩
        · intro i hi hqi hpi
          by_cases hik : i = k
          · subst hik; exact le_refl _
          · exact absurd hqi (h2 i (by omega))
        · intro i hi hqi hpi
          exact absurd hqi (h2 i (by omega))
      · right
        refine ⟨by omega, ?_, fun i hi => h2 i hi⟩
        intro i hi hqi
        by_cases hik : i = k
        · subst hik; omega
        · exact absurd hqi (h2 i (by omega))
    · have hne : ¬acc.1 = -1 := by rw [h1]; omega
      by_cases hrep : 0 < (t.ratioAt s k).N ∧ (acc.2.N ≤ 0 ∨ valLt (t.ratioAt s k) acc.2)
      · rw [if_pos (Or.inr hrep)]
        obtain ⟨hkpos, hsnd⟩ := hrep
        rw [h4] at hsnd
        have hstrict : ∀ i < k, t.qualR s i → 0 < (t.ratioAt s i).N →
            valLt (t.ratioAt s k) (t.ratioAt s i) := by
          rcases hdisj with ⟨hpos, hmin, hfirst⟩ | ⟨hnp, hall, hnone⟩
          · have hlt : valLt (t.ratioAt s k) (t.ratioAt s ri) := by
              rcases hsnd with hnp2 | hlt
              · omega
              · exact hlt
            intro i hi hqi hpi
            have hle := hmin i hi hqi hpi
            have hDk := hD k hqk
            have hDri := hD ri h3
            have hDi := hD i hqi
            rw [valLt_iff hDk hDri] at hlt
            rw [valLe_iff hDri hDi] at hle
            rw [valLt_iff hDk hDi]
            exact lt_of_lt_of_le hlt hle
          · intro i hi hqi hpi
            exact absurd (hall i hi hqi) (by omega)
        right
        refine ⟨k, rfl, by omega, hqk, rfl, Or.inl ⟨hkpos, ?_, hstrict⟩⟩
        intro i hi hqi hpi
        by_cases hik : i = k
        · subst hik; exact le_refl _
        · have := hstrict i (by omega) hqi hpi
          unfold valLt at this
          unfold valLe
          omega
      · rw [if_neg (fun hc => hc.elim hne hrep)]
        right
        refine ⟨ri, h1, by omega, h3, h4, ?_⟩
        rcases hdisj with ⟨hpos, hmin, hfirst⟩ | ⟨hnp, hall, hnone⟩
        · left
          refine ⟨hpos, ?_, hfirst⟩
          intro i hi hqi hpi
          by_cases hik : i = k
          · subst hik
            have hnotor : ¬(acc.2.N ≤ 0 ∨ valLt (t.ratioAt s i) acc.2) :=
              fun hor => hrep ⟨hpi, hor⟩
            have hnotlt : ¬valLt (t.ratioAt s i) (t.ratioAt s ri) := by
              intro hlt
              refine hnotor (Or.inr ?_)
              rw [h4]
              exact hlt
            unfold valLt at hnotlt
            unfold valLe
            omega
          · exact hmin i (by omega) hqi hpi
        · right
          refine ⟨hnp, ?_, hnone⟩
          intro i hi hqi
          by_cases hik : i = k
          · subst hik
            by_contra hc
            push_neg at hc
            exact hrep ⟨hc, Or.inl (by rw [h4]; omega)⟩
          · exact hall i (by omega) hqi

theorem ratioScan_inv (t : Tableau) (s : Nat)
    (hD : ∀ i, t.qualR s i → 0 < (t.ratioAt s i).D) :
    t.ratioInv s (t.rows - 1) (t.ratioScan s) := by
  unfold ratioScan
  generalize t.rows - 1 = len
  induction len with
  | zero => left; exact ⟨rfl, by omega⟩
  | succ len ih =>
    rw [foldl_range_succ]
    exact t.ratioStep_inv s hD len _ ih

theorem ratio_D_pos {t : Tableau} {m n : Nat} (hwf : t.WF m n) (hdp : t.DPos)
    (s : Nat) : ∀ i, t.qualR s i → 0 < (t.ratioAt s i).D := by
  intro i hqi
  obtain ⟨hdy, hpos⟩ := hqi
  have hN : (t.entry i s).N ≠ 0 := by omega
  obtain ⟨hi, hs⟩ := entry_lt_of_N_ne_zero hwf hN
  have hcols : t.cols = n := hwf.cols_eq (by omega)
  have hRHS : 0 < (t.entry i (t.cols - 1)).D := by
    rw [hcols]
    exact hwf.entry_D_pos hdp hi (by omega)
  unfold ratioAt
  exact Fraction.Div_D_pos _ _ (by omega) (by omega)

theorem enterScan_neg_iff (t : Tableau) :
    t.enterScan.1 = -1 ↔ ∀ j < t.cols - 1, ¬t.qualE j := by
  have h := t.enterScan_inv
  constructor
  · intro he
    rcases h with ⟨_, h2⟩ | ⟨js, h1, _, _, _, _, _⟩
    · exact h2
    · rw [he] at h1; omega
  · intro hall
    rcases h with ⟨h1, _⟩ | ⟨js, _, h2, h3, _, _, _⟩
    · exact h1
    · exact absurd h3 (hall js h2)

theorem enterScan_some_spec (t : Tableau) {js : Nat} (h1 : t.enterScan.1 = (js : Int)) :
    js < t.cols - 1 ∧ t.qualE js ∧
      (∀ j < t.cols - 1, t.qualE j → t.keyE js ≤ t.keyE j) ∧
      ∀ j < js, t.qualE j → t.keyE js < t.keyE j := by
  have h := t.enterScan_inv
  rcases h with ⟨h1', _⟩ | ⟨js', h1', h2, h3, _, h5, h6⟩
  · rw [h1'] at h1; omega
  · have : js' = js := by rw [h1'] at h1; omega
    subst this
    exact ⟨h2, h3, h5, h6⟩

theorem ratioScan_neg_iff (t : Tableau) (s : Nat)
    (hD : ∀ i, t.qualR s i → 0 < (t.ratioAt s i).D) :
    (t.ratioScan s).1 = -1 ↔ ∀ i < t.rows - 1, ¬t.qualR s i := by
  have h := t.ratioScan_inv s hD
  constructor
  · intro he
    rcases h with ⟨_, h2⟩ | ⟨ri, h1, _, _, _, _⟩
    · exact h2
    · rw [he] at h1; omega
  · intro hall
    rcases h with ⟨h1, _⟩ | ⟨ri, _, h2, h3, _, _⟩
    · exact h1
    · exact absurd h3 (hall ri h2)

theorem ratioScan_some_spec (t : Tableau) (s : Nat)
    (hD : ∀ i, t.qualR s i → 0 < (t.ratioAt s i).D)
    {ri : Nat} (h1 : (t.ratioScan s).1 = (ri : Int)) :
    ri < t.rows - 1 ∧ t.qualR s ri ∧
      ((0 < (t.ratioAt s ri).N ∧
        (∀ i < t.rows - 1, t.qualR s i → 0 < (t.ratioAt s i).N →
          valLe (t.ratioAt s ri) (t.ratioAt s i)) ∧
        (∀ i < ri, t.qualR s i → 0 < (t.ratioAt s i).N →
          valLt (t.ratioAt s ri) (t.ratioAt s i))) ∨
      ((t.ratioAt s ri).N ≤ 0 ∧ (∀ i < t.rows - 1, t.qualR s i → (t.ratioAt s i).N ≤ 0) ∧
        ∀ i < ri, ¬t.qualR s i)) := by
  have h := t.ratioScan_inv s hD
  rcases h with ⟨h1', _⟩ | ⟨ri', h1', h2, h3, _, hdisj⟩
  · rw [h1'] at h1; omega
  · have : ri' = ri := by rw [h1'] at h1; omega
    subst this
    exact ⟨h2, h3, hdisj⟩

theorem pffColScan_some_spec (t : Tableau) (r : Nat) {js : Nat}
    (h1 : (t.pffColScan r).1 = (js : Int)) :
    js < t.cols - 1 ∧ t.qualPC r js ∧
      (∀ j < t.cols - 1, t.qualPC r j → (t.entry r js).N ≤ (t.entry r j).N) ∧
      ∀ j < js, t.qualPC r j → (t.entry r js).N < (t.entry r j).N := by
  have h := t.pffColScan_inv r
  rcases h with ⟨h1', _⟩ | ⟨js', h1', h2, h3, _, h5, h6⟩
  · rw [h1'] at h1; omega
  · have : js' = js := by rw [h1'] at h1; omega
    subst this
    exact ⟨h2, h3, h5, h6⟩

theorem pffColScan_neg_iff (t : Tableau) (r : Nat) :
    (t.pffColScan r).1 = -1 ↔ ∀ j < t.cols - 1, ¬t.qualPC r j := by
  have h := t.pffColScan_inv r
  constructor
  · intro he
    rcases h with ⟨_, h2⟩ | ⟨js, h1, _, _, _, _, _⟩
    · exact h2
    · rw [he] at h1; omega
  · intro hall
    rcases h with ⟨h1, _⟩ | ⟨js, _, h2, h3, _, _, _⟩
    · exact h1
    · exact absurd h3 (hall js h2)

/-- `Pivot` with its `let`s inlined. -/
theorem Pivot_def (t : Tableau) : t.Pivot =
    if t.enterScan.1 = -1 then (-1, -1)
    else if (t.ratioScan t.enterScan.1.toNat).1 = -1 then (-1, -1)
    else ((t.ratioScan t.enterScan.1.toNat).1, t.enterScan.1) := rfl

/-- `PivotForFeasibility` with its `let`s inlined. -/
theorem PivotForFeasibility_def (t : Tableau) : t.PivotForFeasibility =
    if t.pffRow = -1 then (-1, -1)
    else (t.pffRow, (t.pffColScan t.pffRow.toNat).1) := rfl

end Tableau

/-! ## Small list-access lemmas -/

theorem getD_replicate_of_lt {α : Type} (n : Nat) (a d : α) {i : Nat} (h : i < n) :
    (List.replicate n a).getD i d = a := by
  rw [List.getD_eq_getElem?_getD, List.getElem?_replicate, if_pos h]
  rfl

theorem getD_replicate_self {α : Type} (n : Nat) (a : α) (i : Nat) :
    (List.replicate n a).getD i a = a := by
  by_cases h : i < n
  · exact getD_replicate_of_lt n a a h
  · rw [List.getD_eq_getElem?_getD, List.getElem?_replicate, if_neg h]
    rfl

theorem getD_map_range {α : Type} (f : Nat → α) (n : Nat) (d : α) {i : Nat}
    (h : i < n) : ((List.range n).map f).getD i d = f i := by
  have hlen : i < ((List.range n).map f).length := by
    rw [List.length_map, List.length_range]; exact h
  rw [List.getD_eq_getElem?_getD, List.getElem?_eq_getElem hlen]
  simp [List.getElem_map, List.getElem_range]

/-! ## Claim C7 -/

/-- C7 (counterexample): `Init 2 2` fills the grid with Go's zero value
`Fraction{0, 0}`: entry `(0,0)` has denominator `0` — it is exactly the
0-denominator "undefined/infinity" sentinel, not a zero rational with a
valid nonzero denominator as the claim requires. -/
theorem init_entries_cex :
    (Tableau.Init 2 2).entry 0 0 = ⟨0, 0⟩ ∧ ((Tableau.Init 2 2).entry 0 0).D = 0 :=
  ⟨by decide, by decide⟩

/-- C7 (amended): for `rows, cols ≥ 1`, `Init` produces a well-formed
`rows × cols` grid whose every entry is `Fraction{0, 0}` (numerator and
denominator both zero — Go's zero value, which is the 0-denominator
sentinel, not a zero rational with nonzero denominator), with default row
labels `s1..s(rows-1)` plus `F` last, column labels `-x1..-x(cols-1)` plus
`const` last, all masks false, and `IsMaximization = true`. -/
theorem init_spec (rows cols : Nat) (hr : 1 ≤ rows) (hc : 1 ≤ cols) :
    (Tableau.Init rows cols).WF rows cols ∧
    (∀ i < rows, ∀ j < cols, (Tableau.Init rows cols).entry i j = ⟨0, 0⟩) ∧
    (∀ i < rows - 1,
      (Tableau.Init rows cols).rowNames.getD i "" = "s" ++ toString (i + 1)) ∧
    (Tableau.Init rows cols).rowNames.getD (rows - 1) "" = "F" ∧
    (∀ j < cols - 1,
      (Tableau.Init rows cols).colNames.getD j "" = "-x" ++ toString (j + 1)) ∧
    (Tableau.Init rows cols).colNames.getD (cols - 1) "" = "const" ∧
    (∀ i, (Tableau.Init rows cols).dy i = false) ∧
    (∀ j, (Tableau.Init rows cols).dx j = false) ∧
    (Tableau.Init rows cols).isMaximization = true := by
  refine ⟨?_, ?_, ?_, ?_, ?_, ?_, ?_, ?_, rfl⟩
  · refine ⟨List.length_replicate _ _, ?_, List.length_replicate _ _,
      List.length_replicate _ _, ?_, ?_⟩
    · intro row hrow
      rw [List.eq_of_mem_replicate hrow]
      exact List.length_replicate _ _
    · show ((List.range rows).map _).length = rows
      rw [List.length_map, List.length_range]
    · show ((List.range cols).map _).length = cols
      rw [List.length_map, List.length_range]
  · intro i hi j hj
    show ((List.replicate rows (List.replicate cols (⟨0, 0⟩ : Fraction))).getD i []).getD
      j ⟨0, 0⟩ = ⟨0, 0⟩
    rw [getD_replicate_of_lt rows _ _ hi, getD_replicate_of_lt cols _ _ hj]
  · intro i hi
    show ((List.range rows).map _).getD i "" = _
    rw [getD_map_range _ _ _ (by omega)]
    rw [if_neg (by omega)]
  · show ((List.range rows).map _).getD (rows - 1) "" = _
    rw [getD_map_range _ _ _ (by omega)]
    rw [if_pos rfl]
  · intro j hj
    show ((List.range cols).map _).getD j "" = _
    rw [getD_map_range _ _ _ (by omega)]
    rw [if_neg (by omega)]
  · show ((List.range cols).map _).getD (cols - 1) "" = _
    rw [getD_map_range _ _ _ (by omega)]
    rw [if_pos rfl]
  · intro i
    exact getD_replicate_self rows false i
  · intro j
    exact getD_replicate_self cols false j

/-- Witness for C7 at `rows = 3`, `cols = 3`. -/
theorem init_spec_witness :
    (1 ≤ 3 ∧ 1 ≤ 3) ∧
      ((Tableau.Init 3 3).WF 3 3 ∧
      (∀ i < 3, ∀ j < 3, (Tableau.Init 3 3).entry i j = ⟨0, 0⟩) ∧
      (∀ i < 3 - 1, (Tableau.Init 3 3).rowNames.getD i "" = "s" ++ toString (i + 1)) ∧
      (Tableau.Init 3 3).rowNames.getD (3 - 1) "" = "F" ∧
      (∀ j < 3 - 1, (Tableau.Init 3 3).colNames.getD j "" = "-x" ++ toString (j + 1)) ∧
      (Tableau.Init 3 3).colNames.getD (3 - 1) "" = "const" ∧
      (∀ i, (Tableau.Init 3 3).dy i = false) ∧
      (∀ j, (Tableau.Init 3 3).dx j = false) ∧
      (Tableau.Init 3 3).isMaximization = true) :=
  ⟨⟨by decide, by decide⟩, init_spec 3 3 (by decide) (by decide)⟩

theorem getD_set_self {α : Type} (l : List α) (i : Nat) (a d : α) (h : i < l.length) :
    (l.set i a).getD i d = a := by
  rw [List.getD_eq_getElem?_getD, List.getElem?_set_self h]
  rfl

theorem getD_set_ne {α : Type} (l : List α) {i j : Nat} (a d : α) (h : i ≠ j) :
    (l.set i a).getD j d = l.getD j d := by
  rw [List.getD_eq_getElem?_getD, List.getElem?_set_ne h, ← List.getD_eq_getElem?_getD]

namespace Tableau

theorem Transform_entry (t : Tableau) (r s : Nat) {i j : Nat}
    (hi : i < t.rows) (hj : j < t.cols) :
    (t.Transform r s).entry i j = t.transformCell r s i j := by
  show (((List.range t.rows).map
      (fun i => (List.range t.cols).map (fun j => t.transformCell r s i j))).getD i
        []).getD j ⟨0, 0⟩ = _
  rw [getD_map_range _ _ _ hi, getD_map_range _ _ _ hj]

end Tableau

/-! ## Claim C1 -/

/-- C1 (confirmed): on an `m × n` tableau with positive-denominator entries,
for a pivot `(r, s)` with `r < m-1`, `s < n-1` and nonzero pivot entry,
`Transform` produces the Gauss-Jordan exchange: pivot cell `1/old(r,s)`,
pivot row `old(r,j)/old(r,s)`, pivot column `−old(i,s)/old(r,s)`, the
rectangle rule elsewhere (all as exact rational values), sets the two mask
bits carrying the rest over, swaps the two labels leaving the rest, and
keeps the dimensions and the `IsMaximization` flag. -/
theorem transform_spec (t : Tableau) (m n r s : Nat) (hwf : t.WF m n) (hdp : t.DPos)
    (hm : 2 ≤ m) (hn : 2 ≤ n) (hr : r < m - 1) (hs : s < n - 1)
    (hpiv : (t.entry r s).N ≠ 0) :
    ((t.Transform r s).entry r s).val = 1 / (t.entry r s).val ∧
    (∀ j < n, j ≠ s → ((t.Transform r s).entry r j).val
      = (t.entry r j).val / (t.entry r s).val) ∧
    (∀ i < m, i ≠ r → ((t.Transform r s).entry i s).val
      = -((t.entry i s).val / (t.entry r s).val)) ∧
    (∀ i < m, ∀ j < n, i ≠ r → j ≠ s → ((t.Transform r s).entry i j).val
      = ((t.entry i j).val * (t.entry r s).val
          - (t.entry i s).val * (t.entry r j).val) / (t.entry r s).val) ∧
    (t.Transform r s).dy r = true ∧
    (∀ i, i ≠ r → (t.Transform r s).dy i = t.dy i) ∧
    (t.Transform r s).dx s = true ∧
    (∀ j, j ≠ s → (t.Transform r s).dx j = t.dx j) ∧
    (t.Transform r s).rowNames.getD r "" = t.colNames.getD s "" ∧
    (∀ i, i ≠ r → (t.Transform r s).rowNames.getD i "" = t.rowNames.getD i "") ∧
    (t.Transform r s).colNames.getD s "" = t.rowNames.getD r "" ∧
    (∀ j, j ≠ s → (t.Transform r s).colNames.getD j "" = t.colNames.getD j "") ∧
    (t.Transform r s).WF m n ∧
    (t.Transform r s).isMaximization = t.isMaximization := by
  obtain ⟨hlen, hrowlen, hdYlen, hdXlen, hrNlen, hcNlen⟩ := hwf
  have hwf' : t.WF m n := ⟨hlen, hrowlen, hdYlen, hdXlen, hrNlen, hcNlen⟩
  have hrows : t.rows = m := hwf'.rows_eq
  have hcols : t.cols = n := hwf'.cols_eq (by omega)
  have hrm : r < m := by omega
  have hsn : s < n := by omega
  have hpD : 0 < (t.entry r s).D := hwf'.entry_D_pos hdp hrm hsn
  have hpDne : (t.entry r s).D ≠ 0 := by omega
  have hE : ∀ i j : Nat, i < m → j < n →
      (t.Transform r s).entry i j = t.transformCell r s i j := by
    intro i j hi hj
    exact t.Transform_entry r s (by omega) (by omega)
  have hDall : ∀ i j : Nat, i < m → j < n → (t.entry i j).D ≠ 0 := by
    intro i j hi hj
    have := hwf'.entry_D_pos hdp hi hj
    omega
  refine ⟨?_, ?_, ?_, ?_, ?_, ?_, ?_, ?_, ?_, ?_, ?_, ?_, ?_, rfl⟩
  · rw [hE r s hrm hsn]
    unfold Tableau.transformCell
    rw [if_pos ⟨rfl, rfl⟩]
    rw [Fraction.Div_val ⟨1, 1⟩ _ one_ne_zero hpDne hpiv]
    have h1 : Fraction.val ⟨1, 1⟩ = 1 := by unfold Fraction.val; norm_num
    rw [h1]
  · intro j hj hne
    rw [hE r j hrm hj]
    unfold Tableau.transformCell
    rw [if_neg (fun hc => hne hc.2), if_pos rfl]
    exact Fraction.Div_val _ _ (hDall r j hrm hj) hpDne hpiv
  · intro i hi hne
    rw [hE i s hi hsn]
    unfold Tableau.transformCell
    rw [if_neg (fun hc => hne hc.1), if_neg hne, if_pos rfl]
    have hdiv : ((t.entry i s).Div (t.entry r s)).D ≠ 0 := by
      have := Fraction.Div_D_pos (t.entry i s) (t.entry r s) (hDall i s hi hsn) hpiv
      omega
    rw [Fraction.Neg_val _ hdiv, Fraction.Div_val _ _ (hDall i s hi hsn) hpDne hpiv]
  · intro i hi j hj hni hnj
    rw [hE i j hi hj]
    unfold Tableau.transformCell
    rw [if_neg (fun hc => hni hc.1), if_neg hni, if_neg hnj]
    unfold Tableau.fillElement
    have hm1 : 0 < ((t.entry i j).Mul (t.entry r s)).D :=
      Fraction.Mul_D_pos _ _ (hDall i j hi hj) hpDne
    have hm2 : 0 < ((t.entry i s).Mul (t.entry r j)).D :=
      Fraction.Mul_D_pos _ _ (hDall i s hi hsn) (hDall r j hrm hj)
    have hsub : 0 < (((t.entry i j).Mul (t.entry r s)).Sub
        ((t.entry i s).Mul (t.entry r j))).D :=
      Fraction.Sub_D_pos _ _ (by omega) (by omega)
    rw [Fraction.Div_val _ _ (by omega) hpDne hpiv,
      Fraction.Sub_val _ _ (by omega) (by omega),
      Fraction.Mul_val _ _ (hDall i j hi hj) hpDne,
      Fraction.Mul_val _ _ (hDall i s hi hsn) (hDall r j hrm hj)]
  · show (t.dirtY.set r true).getD r false = true
    exact getD_set_self _ _ _ _ (by omega)
  · intro i hne
    show (t.dirtY.set r true).getD i false = t.dirtY.getD i false
    exact getD_set_ne _ _ _ (fun h => hne h.symm)
  · show (t.dirtX.set s true).getD s false = true
    exact getD_set_self _ _ _ _ (by omega)
  · intro j hne
    show (t.dirtX.set s true).getD j false = t.dirtX.getD j false
    exact getD_set_ne _ _ _ (fun h => hne h.symm)
  · show (t.rowNames.set r (t.colNames.getD s "")).getD r "" = _
    exact getD_set_self _ _ _ _ (by omega)
  · intro i hne
    show (t.rowNames.set r _).getD i "" = _
    exact getD_set_ne _ _ _ (fun h => hne h.symm)
  · show (t.colNames.set s (t.rowNames.getD r "")).getD s "" = _
    exact getD_set_self _ _ _ _ (by omega)
  · intro j hne
    show (t.colNames.set s _).getD j "" = _
    exact getD_set_ne _ _ _ (fun h => hne h.symm)
  · refine ⟨?_, ?_, ?_, ?_, ?_, ?_⟩
    · show ((List.range t.rows).map _).length = m
      rw [List.length_map, List.length_range, hrows]
    · intro row hrow
      have hrow' : row ∈ (List.range t.rows).map
          (fun i => (List.range t.cols).map (fun j => t.transformCell r s i j)) := hrow
      rw [List.mem_map] at hrow'
      obtain ⟨i, _, rfl⟩ := hrow'
      show ((List.range t.cols).map _).length = n
      rw [List.length_map, List.length_range, hcols]
    · show (t.dirtY.set r true).length = m
      rw [List.length_set, hdYlen]
    · show (t.dirtX.set s true).length = n
      rw [List.length_set, hdXlen]
    · show (t.rowNames.set r _).length = m
      rw [List.length_set, hrNlen]
    · show (t.colNames.set s _).length = n
      rw [List.length_set, hcNlen]

/-! ## Claim C2 -/

/-- C2 (counterexample): on `exT2` (reduced entries, positive denominators,
maximizing) the objective row is `[-1/2, -2/5]`.  Column 0 is unmasked and
its entry `-1/2` has strictly smaller (more negative) rational value than
column 1's entry `-2/5`, yet `Pivot` selects column 1 — the code compares
numerators, not values, so the claim's "most negative value" rule is
violated. -/
theorem pivot_entering_value_cex :
    exT2.Reduced ∧ exT2.Pivot = (0, 1) ∧ valLt (exT2.entry 1 0) (exT2.entry 1 1) ∧
      (exT2.entry 1 0).N < 0 ∧ exT2.dx 0 = false :=
  ⟨by decide, by decide, by decide, by decide, by decide⟩

/-- C2 (amended): with reduced, positive-denominator entries, the entering
column chosen by `Pivot`'s scan is the unmasked non-RHS column whose
objective-row entry has the most negative **numerator** (maximizing) resp.
most positive numerator (minimizing) — `keyE` is that numerator, negated
for minimization — with ties broken by first occurrence; a column qualifies
exactly when it is unmasked and its objective-row entry is negative
(maximizing) / positive (minimizing) as a rational value; and if no column
qualifies, `Pivot` returns `(-1, -1)`. -/
theorem pivot_entering_spec (t : Tableau) (m n : Nat) (hwf : t.WF m n)
    (hred : t.Reduced) (hm : 1 ≤ m) (hn : 1 ≤ n) :
    (t.enterScan.1 = -1 ↔ ∀ j < n - 1, ¬t.qualE j) ∧
    (∀ js : Nat, t.enterScan.1 = (js : Int) →
      js < n - 1 ∧ t.qualE js ∧
        (∀ j < n - 1, t.qualE j → t.keyE js ≤ t.keyE j) ∧
        ∀ j < js, t.qualE j → t.keyE js < t.keyE j) ∧
    (∀ j < n - 1, (t.qualE j ↔ t.dx j = false ∧
      ((t.isMaximization = true ∧ (t.entry (m - 1) j).val < 0) ∨
        (t.isMaximization = false ∧ 0 < (t.entry (m - 1) j).val)))) ∧
    ((∀ j < n - 1, ¬t.qualE j) → t.Pivot = (-1, -1)) := by
  have hdp : t.DPos := fun row hr f hf => (hred row hr f hf).1
  have hrows : t.rows = m := hwf.rows_eq
  have hcols : t.cols = n := hwf.cols_eq hm
  have hneg_iff := t.enterScan_neg_iff
  rw [hcols] at hneg_iff
  refine ⟨hneg_iff, ?_, ?_, ?_⟩
  · intro js h1
    have h := t.enterScan_some_spec h1
    rw [hcols] at h
    exact h
  · intro j hj
    have hD : 0 < (t.entry (m - 1) j).D := hwf.entry_D_pos hdp (by omega) (by omega)
    unfold Tableau.qualE
    rw [hrows]
    constructor
    · rintro ⟨hdx, hor⟩
      refine ⟨hdx, ?_⟩
      rcases hor with ⟨hmx, hneg⟩ | ⟨hmx, hpos⟩
      · exact Or.inl ⟨hmx, (val_neg_iff hD).mpr hneg⟩
      · exact Or.inr ⟨hmx, (val_pos_iff hD).mpr hpos⟩
    · rintro ⟨hdx, hor⟩
      refine ⟨hdx, ?_⟩
      rcases hor with ⟨hmx, hneg⟩ | ⟨hmx, hpos⟩
      · exact Or.inl ⟨hmx, (val_neg_iff hD).mp hneg⟩
      · exact Or.inr ⟨hmx, (val_pos_iff hD).mp hpos⟩
  · intro hall
    rw [Tableau.Pivot_def, if_pos (hneg_iff.mpr hall)]

/-- Witness for C2 at `exT1` (its entering column is column 0). -/
theorem pivot_entering_spec_witness :
    exT1.WF 2 2 ∧ exT1.enterScan.1 = (0 : Nat) ∧ exT1.qualE 0 :=
  ⟨by decide, by decide,
    ((pivot_entering_spec exT1 2 2 (by decide) (by decide) (by decide)
      (by decide)).2.1 0 (by decide)).2.1⟩

/-- Witness for C1 at `exT1`, pivot `(0, 0)`. -/
theorem transform_spec_witness :
    ((exT1.Transform 0 0).entry 0 0).val = 1 / (exT1.entry 0 0).val :=
  (transform_spec exT1 2 2 0 0 (by decide) (by decide) (by decide) (by decide)
    (by decide) (by decide) (by decide)).1

namespace Tableau

theorem ratioStepL_inv (t : Tableau) (s k : Nat) (acc : Int × Fraction)
    (h : t.ratioInvL s k acc) : t.ratioInvL s (k + 1) (t.ratioStep s acc k) := by
  unfold Tableau.ratioStep
  by_cases hq : t.dy k = false ∧ 0 < (t.entry k s).N
  · rw [if_pos hq]
    show t.ratioInvL s (k + 1)
      (if acc.1 = -1 ∨ (0 < (t.ratioAt s k).N ∧
          (acc.2.N ≤ 0 ∨ valLt (t.ratioAt s k) acc.2))
        then ((k : Int), t.ratioAt s k) else acc)
    by_cases hc : acc.1 = -1 ∨ (0 < (t.ratioAt s k).N ∧
        (acc.2.N ≤ 0 ∨ valLt (t.ratioAt s k) acc.2))
    · rw [if_pos hc]
      right
      exact ⟨k, rfl, by omega, hq⟩
    · rw [if_neg hc]
      rcases h with ⟨h1, _⟩ | ⟨ri, h1, h2, h3⟩
      · exact absurd (Or.inl h1) hc
      · right
        exact ⟨ri, h1, by omega, h3⟩
  · rw [if_neg hq]
    rcases h with ⟨h1, h2⟩ | ⟨ri, h1, h2, h3⟩
    · left
      refine ⟨h1, fun i hi hqi => ?_⟩
      by_cases hik : i = k
      · exact hq (hik ▸ hqi)
      · exact h2 i (by omega) hqi
    · right
      exact ⟨ri, h1, by omega, h3⟩

theorem ratioScanL_inv (t : Tableau) (s : Nat) :
    t.ratioInvL s (t.rows - 1) (t.ratioScan s) := by
  unfold ratioScan
  generalize t.rows - 1 = len
  induction len with
  | zero => left; exact ⟨rfl, by omega⟩
  | succ len ih =>
    rw [foldl_range_succ]
    exact t.ratioStepL_inv s len _ ih

theorem ratioScan_fst_shape (t : Tableau) (s : Nat) :
    ((t.ratioScan s).1 = -1 ∧ ∀ i < t.rows - 1, ¬t.qualR s i) ∨
    (∃ ri : Nat, (t.ratioScan s).1 = (ri : Int) ∧ ri < t.rows - 1 ∧ t.qualR s ri) :=
  t.ratioScanL_inv s

theorem enterScan_fst_shape (t : Tableau) :
    t.enterScan.1 = -1 ∨
    (∃ js : Nat, t.enterScan.1 = (js : Int) ∧ js < t.cols - 1 ∧ t.qualE js) := by
  rcases t.enterScan_inv with ⟨h1, _⟩ | ⟨js, h1, h2, h3, _⟩
  · exact Or.inl h1
  · exact Or.inr ⟨js, h1, h2, h3⟩

theorem pffColScan_fst_shape (t : Tableau) (r : Nat) :
    (t.pffColScan r).1 = -1 ∨
    (∃ js : Nat, (t.pffColScan r).1 = (js : Int) ∧ js < t.cols - 1 ∧ t.qualPC r js) := by
  rcases t.pffColScan_inv r with ⟨h1, _⟩ | ⟨js, h1, h2, h3, _⟩
  · exact Or.inl h1
  · exact Or.inr ⟨js, h1, h2, h3⟩

end Tableau

/-! ## Claim C3 -/

/-- C3 (counterexample): on `exT3` (reduced entries) the entering column is
column 0; rows 0 and 1 both qualify (unmasked, positive entry) with ratios
`0/1 = 0` and `5/1 = 5`.  The smallest non-negative ratio is `0` in row 0,
yet `Pivot` selects row 1: a later positive ratio displaces a zero ratio,
so the claim's "smallest non-negative ratio" rule is violated. -/
theorem pivot_ratio_cex :
    exT3.Reduced ∧ exT3.Pivot = (1, 0) ∧ exT3.qualR 0 0 ∧ exT3.qualR 0 1 ∧
      exT3.ratioAt 0 0 = ⟨0, 1⟩ ∧ exT3.ratioAt 0 1 = ⟨5, 1⟩ :=
  ⟨by decide, by decide, by decide, by decide, by decide, by decide⟩

/-- C3 (amended): with reduced positive-denominator entries and an entering
column `s`, the ratio scan returns `-1` (and then `Pivot` returns
`(-1, -1)`, signalling unboundedness) exactly when no unmasked
non-objective row has a positive entry in column `s`; otherwise it returns
a qualifying row `ri` such that EITHER `ri`'s ratio is positive and is the
minimum of all positive ratios of qualifying rows (ties broken by first
occurrence), OR no qualifying row has a positive ratio and `ri` is the
first qualifying row (its ratio may be zero or negative) — not the
"smallest non-negative ratio" row in general. -/
theorem pivot_ratio_spec (t : Tableau) (m n : Nat) (hwf : t.WF m n)
    (hred : t.Reduced) (hm : 1 ≤ m) (hn : 1 ≤ n) (s : Nat) (hs : s < n - 1) :
    ((t.ratioScan s).1 = -1 ↔ ∀ i < m - 1, ¬t.qualR s i) ∧
    (∀ ri : Nat, (t.ratioScan s).1 = (ri : Int) →
      ri < m - 1 ∧ t.qualR s ri ∧
        ((0 < (t.ratioAt s ri).val ∧
          (∀ i < m - 1, t.qualR s i → 0 < (t.ratioAt s i).val →
            (t.ratioAt s ri).val ≤ (t.ratioAt s i).val) ∧
          (∀ i < ri, t.qualR s i → 0 < (t.ratioAt s i).val →
            (t.ratioAt s ri).val < (t.ratioAt s i).val)) ∨
        ((t.ratioAt s ri).val ≤ 0 ∧
          (∀ i < m - 1, t.qualR s i → (t.ratioAt s i).val ≤ 0) ∧
          ∀ i < ri, ¬t.qualR s i))) ∧
    (t.enterScan.1 ≠ -1 → (t.ratioScan t.enterScan.1.toNat).1 = -1 →
      t.Pivot = (-1, -1)) := by
  have hdp : t.DPos := fun row hr f hf => (hred row hr f hf).1
  have hrows : t.rows = m := hwf.rows_eq
  have hD := Tableau.ratio_D_pos hwf hdp s
  have hneg_iff := t.ratioScan_neg_iff s hD
  rw [hrows] at hneg_iff
  refine ⟨hneg_iff, ?_, ?_⟩
  · intro ri h1
    obtain ⟨h2, h3, hdisj⟩ := t.ratioScan_some_spec s hD h1
    rw [hrows] at h2 hdisj
    have hDri : 0 < (t.ratioAt s ri).D := hD ri h3
    refine ⟨h2, h3, ?_⟩
    rcases hdisj with ⟨hpos, hmin, hfirst⟩ | ⟨hnp, hall, hnone⟩
    · left
      refine ⟨(val_pos_iff hDri).mpr hpos, ?_, ?_⟩
      · intro i hi hqi hvip
        have hDi : 0 < (t.ratioAt s i).D := hD i hqi
        exact (valLe_iff hDri hDi).mp
          (hmin i hi hqi ((val_pos_iff hDi).mp hvip))
      · intro i hi hqi hvip
        have hDi : 0 < (t.ratioAt s i).D := hD i hqi
        exact (valLt_iff hDri hDi).mp
          (hfirst i hi hqi ((val_pos_iff hDi).mp hvip))
    · right
      refine ⟨(val_nonpos_iff hDri).mpr hnp, ?_, hnone⟩
      intro i hi hqi
      have hDi : 0 < (t.ratioAt s i).D := hD i hqi
      exact (val_nonpos_iff hDi).mpr (hall i hi hqi)
  · intro h1 h2
    rw [Tableau.Pivot_def, if_neg h1, if_pos h2]

/-- Witness for C3 at `exT1` (entering column 0, leaving row 0). -/
theorem pivot_ratio_spec_witness :
    (exT1.ratioScan 0).1 = ((0 : Nat) : Int) ∧ 0 < 2 - 1 ∧ exT1.qualR 0 0 :=
  ⟨by decide, by decide,
    ((pivot_ratio_spec exT1 2 2 (by decide) (by decide) (by decide) (by decide)
      0 (by decide)).2.1 0 (by decide)).2.1⟩

/-! ## Claim C9 -/

/-- C9 (counterexample): `exT1` is not optimal, `Pivot` selects the valid
pivot `(0, 0)` because an improving column exists, and `IsOptimal` is
already **true** on the transformed tableau — the pivot that reaches the
optimum immediately satisfies `IsOptimal`, contradicting the claim's first
conjunct. -/
theorem isOptimal_after_pivot_cex :
    exT1.IsOptimal = false ∧ exT1.Pivot = (0, 0) ∧
      (exT1.Transform 0 0).IsOptimal = true :=
  ⟨by decide, by decide, by decide⟩

/-- C9 (amended): the first conjunct fails (after the final pivot of a run
`IsOptimal` is true, as `isOptimal_after_pivot_cex` shows); the second
holds: whenever `IsOptimal` returns true, `Pivot` returns the invalid pair
`(-1, -1)`. -/
theorem isOptimal_pivot_spec (t : Tableau) (hopt : t.IsOptimal = true) :
    t.Pivot = (-1, -1) := by
  have hall : ∀ j < t.cols - 1, ¬t.qualE j := by
    intro j hj hq
    unfold Tableau.IsOptimal at hopt
    rw [List.all_eq_true] at hopt
    have hj' := hopt j (List.mem_range.mpr hj)
    rw [Bool.not_eq_true', decide_eq_false_iff_not] at hj'
    exact hj' hq.2
  rw [Tableau.Pivot_def, if_pos (t.enterScan_neg_iff.mpr hall)]

/-- Witness for C9 at `exTopt`. -/
theorem isOptimal_pivot_spec_witness :
    exTopt.IsOptimal = true ∧ exTopt.Pivot = (-1, -1) :=
  ⟨by decide, isOptimal_pivot_spec exTopt (by decide)⟩

/-! ## Claim C10 -/

/-- C10 (confirmed): on an `m × n` well-formed tableau (`m, n ≥ 2`),
whenever `Pivot` returns a pair with both components non-negative, the row
is an unmasked constraint-row index (`≤ m-2`), the column an unmasked
non-RHS index (`≤ n-2`), and the pivot entry has strictly positive
numerator; whenever `PivotForFeasibility` does, the pivot entry has
strictly negative numerator; in both cases the numerator is nonzero, so
`Transform` never divides by a zero-numerator fraction. -/
theorem pivot_inrange_spec (t : Tableau) (m n : Nat) (hwf : t.WF m n)
    (hm : 2 ≤ m) (hn : 2 ≤ n) :
    (∀ r s : Int, t.Pivot = (r, s) → 0 ≤ r → 0 ≤ s →
      r.toNat ≤ m - 2 ∧ s.toNat ≤ n - 2 ∧ t.dy r.toNat = false ∧
        t.dx s.toNat = false ∧ 0 < (t.entry r.toNat s.toNat).N ∧
        (t.entry r.toNat s.toNat).N ≠ 0) ∧
    (∀ r s : Int, t.PivotForFeasibility = (r, s) → 0 ≤ r → 0 ≤ s →
      r.toNat ≤ m - 2 ∧ s.toNat ≤ n - 2 ∧ t.dy r.toNat = false ∧
        t.dx s.toNat = false ∧ (t.entry r.toNat s.toNat).N < 0 ∧
        (t.entry r.toNat s.toNat).N ≠ 0) := by
  have hrows : t.rows = m := hwf.rows_eq
  have hcols : t.cols = n := hwf.cols_eq (by omega)
  constructor
  · intro r s hps hr hs
    rw [Tableau.Pivot_def] at hps
    by_cases h1 : t.enterScan.1 = -1
    · rw [if_pos h1] at hps
      injection hps with hp1 hp2
      omega
    · rw [if_neg h1] at hps
      rcases t.enterScan_fst_shape with h1' | ⟨js, hjs, hjslt, hjq⟩
      · exact absurd h1' h1
      by_cases h2 : (t.ratioScan t.enterScan.1.toNat).1 = -1
      · rw [if_pos h2] at hps
        injection hps with hp1 hp2
        omega
      · rw [if_neg h2] at hps
        injection hps with hp1 hp2
        have htn : t.enterScan.1.toNat = js := by rw [hjs]; omega
        rw [htn] at hp1 h2
        rcases t.ratioScan_fst_shape js with ⟨hneg, _⟩ | ⟨ri, hri, hrilt, hriq⟩
        · exact absurd hneg h2
        · have hrtn : r.toNat = ri := by rw [← hp1, hri]; omega
          have hstn : s.toNat = js := by rw [← hp2, hjs]; omega
          rw [hrtn, hstn]
          rw [hrows] at hrilt
          rw [hcols] at hjslt
          obtain ⟨hdy, hN⟩ := hriq
          exact ⟨by omega, by omega, hdy, hjq.1, hN, by omega⟩
  · intro r s hps hr hs
    rw [Tableau.PivotForFeasibility_def] at hps
    by_cases h1 : t.pffRow = -1
    · rw [if_pos h1] at hps
      injection hps with hp1 hp2
      omega
    · rw [if_neg h1] at hps
      injection hps with hp1 hp2
      rcases t.pffRow_spec with ⟨hneg, _⟩ | ⟨ri, hri, hrilt, hriq, _⟩
      · exact absurd hneg h1
      · have htn : t.pffRow.toNat = ri := by rw [hri]; omega
        rw [htn] at hp2
        rcases t.pffColScan_fst_shape ri with hnegc | ⟨js, hjs, hjslt, hjq⟩
        · rw [hnegc] at hp2; omega
        · have hrtn : r.toNat = ri := by rw [← hp1, hri]; omega
          have hstn : s.toNat = js := by rw [← hp2, hjs]; omega
          rw [hrtn, hstn]
          rw [hrows] at hrilt
          rw [hcols] at hjslt
          obtain ⟨hN, hdx⟩ := hjq
          exact ⟨by omega, by omega, hriq.2, hdx, hN, by omega⟩

/-- Witness for C10 at `exT1`, whose `Pivot` is `(0, 0)`. -/
theorem pivot_inrange_spec_witness :
    (0 : Int).toNat ≤ 2 - 2 ∧ (0 : Int).toNat ≤ 2 - 2 ∧
      exT1.dy (0 : Int).toNat = false ∧ exT1.dx (0 : Int).toNat = false ∧
      0 < (exT1.entry (0 : Int).toNat (0 : Int).toNat).N ∧
      (exT1.entry (0 : Int).toNat (0 : Int).toNat).N ≠ 0 :=
  (pivot_inrange_spec exT1 2 2 (by decide) (by decide) (by decide)).1 0 0
    (by decide) (by decide) (by decide)

/-! ## Claim C6 -/

/-- C6 (counterexample): `exTopt` triggers `Pivot`'s optimality path (no
qualifying entering column, `IsOptimal` true) and `exTunb` its
unboundedness path (column 0 enters but no row limits, `IsOptimal` false);
both calls return the very same value `(-1, -1)` — the caller cannot
distinguish the two conditions from `Pivot`'s return value (the
unboundedness warning is only printed to the console). -/
theorem pivot_status_cex :
    exTopt.Pivot = (-1, -1) ∧ exTunb.Pivot = (-1, -1) ∧
      exTopt.enterScan.1 = -1 ∧ exTunb.enterScan.1 = 0 ∧
      exTopt.IsOptimal = true ∧ exTunb.IsOptimal = false :=
  ⟨by decide, by decide, by decide, by decide, by decide, by decide⟩

/-- C6 (amended): `Pivot` returns the same invalid pair `(-1, -1)` on both
its optimality-detection path (no entering column) and its
unboundedness-detection path (entering column but no limiting row), so its
return value alone does not distinguish the two; callers must test
`IsOptimal` separately.  Likewise `MakeFeasible` folds infeasibility and
cap exhaustion into the same `false`. -/
theorem pivot_invalid_both_spec (t : Tableau) :
    (t.enterScan.1 = -1 → t.Pivot = (-1, -1)) ∧
    (t.enterScan.1 ≠ -1 → (t.ratioScan t.enterScan.1.toNat).1 = -1 →
      t.Pivot = (-1, -1)) := by
  constructor
  · intro h1
    rw [Tableau.Pivot_def, if_pos h1]
  · intro h1 h2
    rw [Tableau.Pivot_def, if_neg h1, if_pos h2]

/-- Witness for C6: the optimality path on `exTopt` and the unboundedness
path on `exTunb` produce the same value. -/
theorem pivot_invalid_both_spec_witness :
    exTopt.Pivot = (-1, -1) ∧ exTunb.Pivot = (-1, -1) :=
  ⟨(pivot_invalid_both_spec exTopt).1 (by decide),
    (pivot_invalid_both_spec exTunb).2 (by decide) (by decide)⟩

namespace Tableau

/-! ## Claim C5 -/

theorem MakeFeasibleAux_zero (t : Tableau) :
    Tableau.MakeFeasibleAux 0 t = t.IsFeasible := rfl

theorem MakeFeasibleAux_succ (fuel : Nat) (t : Tableau) :
    Tableau.MakeFeasibleAux (fuel + 1) t =
      if t.IsFeasible then true
      else if IsPivotValid t.PivotForFeasibility.1 t.PivotForFeasibility.2 then
        Tableau.MakeFeasibleAux fuel
          (t.Transform t.PivotForFeasibility.1.toNat t.PivotForFeasibility.2.toNat)
      else false := rfl

theorem feasIter_succ (t : Tableau) (k : Nat) :
    t.feasIter (k + 1) = (t.feasIter k).Transform
      (t.feasIter k).PivotForFeasibility.1.toNat
      (t.feasIter k).PivotForFeasibility.2.toNat := rfl

theorem feasIter_shift (t : Tableau) (k : Nat) :
    t.feasIter (k + 1) = (t.feasIter 1).feasIter k := by
  induction k with
  | zero => rfl
  | succ k ih =>
    rw [feasIter_succ, ih, ← feasIter_succ]

theorem IsFeasible_iff (t : Tableau) :
    t.IsFeasible = true ↔ ∀ i < t.rows - 1, 0 ≤ (t.entry i (t.cols - 1)).N := by
  unfold Tableau.IsFeasible
  rw [List.all_eq_true]
  constructor
  · intro h i hi
    have hh := h i (List.mem_range.mpr hi)
    rw [Bool.not_eq_true', decide_eq_false_iff_not] at hh
    omega
  · intro h x hx
    rw [Bool.not_eq_true', decide_eq_false_iff_not]
    have := h x (List.mem_range.mp hx)
    omega

theorem makeFeasibleAux_false : ∀ (fuel : Nat) (t : Tableau),
    (∀ k ≤ fuel, (t.feasIter k).IsFeasible = false ∧
      IsPivotValid (t.feasIter k).PivotForFeasibility.1
        (t.feasIter k).PivotForFeasibility.2 = true) →
    Tableau.MakeFeasibleAux fuel t = false := by
  intro fuel
  induction fuel with
  | zero =>
    intro t h
    exact (h 0 (le_refl 0)).1
  | succ fuel ih =>
    intro t h
    obtain ⟨hf, hv⟩ := h 0 (by omega)
    have hf' : t.IsFeasible = false := hf
    have hv' : IsPivotValid t.PivotForFeasibility.1 t.PivotForFeasibility.2 = true := hv
    rw [MakeFeasibleAux_succ]
    rw [if_neg (by rw [hf']; exact fun hc => Bool.noConfusion hc)]
    rw [if_pos hv']
    apply ih
    intro k hk
    have hres := h (k + 1) (by omega)
    rw [feasIter_shift] at hres
    exact hres

end Tableau

/-- C5 (counterexample): on `exT5` (reduced entries) row 0 is the first
unmasked row with negative RHS, its entries are `[-1/2, -2/5]`, and the
most negative **value** is `-1/2` in column 0 (unmasked); yet
`PivotForFeasibility` pairs row 0 with column 1 (numerator `-2 < -1`), so
`MakeFeasible` does not pivot on "the unmasked non-RHS column holding that
row's most negative entry". -/
theorem pff_most_negative_cex :
    exT5.Reduced ∧ exT5.PivotForFeasibility = (0, 1) ∧
      (exT5.entry 0 2).N < 0 ∧ exT5.dy 0 = false ∧
      valLt (exT5.entry 0 0) (exT5.entry 0 1) ∧ (exT5.entry 0 0).N < 0 ∧
      exT5.dx 0 = false :=
  ⟨by decide, by decide, by decide, by decide, by decide, by decide, by decide⟩

/-- C5 (amended): `MakeFeasible` repeatedly pivots on the coordinate chosen
by `PivotForFeasibility` — the first unmasked constraint row with negative
RHS numerator, paired with the unmasked non-RHS column holding that row's
most negative **numerator** (ties by first occurrence) — and returns `true`
as soon as every constraint row's RHS numerator is non-negative; it returns
`false`, without crashing, when the selected negative-RHS row has no
qualifying column (the pivot pair is invalid: infeasible) and when the
iteration cap is exhausted (19 continuing pivots, i.e. the Go counter
passing 20). -/
theorem makeFeasible_spec (t : Tableau) (m n : Nat) (hwf : t.WF m n) (hm : 1 ≤ m) :
    (t.IsFeasible = true ↔ ∀ i < m - 1, 0 ≤ (t.entry i (n - 1)).N) ∧
    (t.pffRow = -1 ↔ ∀ i < m - 1, ¬t.qualPR i) ∧
    (∀ ri : Nat, t.pffRow = (ri : Int) →
      ri < m - 1 ∧ t.qualPR ri ∧ ∀ i < ri, ¬t.qualPR i) ∧
    (∀ r js : Nat, (t.pffColScan r).1 = (js : Int) →
      js < n - 1 ∧ t.qualPC r js ∧
        (∀ j < n - 1, t.qualPC r j → (t.entry r js).N ≤ (t.entry r j).N) ∧
        ∀ j < js, t.qualPC r j → (t.entry r js).N < (t.entry r j).N) ∧
    (t.IsFeasible = true → t.MakeFeasible = true) ∧
    (t.IsFeasible = false → (∀ j < n - 1, ¬t.qualPC t.pffRow.toNat j) →
      t.MakeFeasible = false) ∧
    ((∀ k ≤ 19, (t.feasIter k).IsFeasible = false ∧
        Tableau.IsPivotValid (t.feasIter k).PivotForFeasibility.1
          (t.feasIter k).PivotForFeasibility.2 = true) →
      t.MakeFeasible = false) := by
  have hrows : t.rows = m := hwf.rows_eq
  have hcols : t.cols = n := hwf.cols_eq hm
  refine ⟨?_, ?_, ?_, ?_, ?_, ?_, ?_⟩
  · have := t.IsFeasible_iff
    rw [hrows, hcols] at this
    exact this
  · rcases t.pffRow_spec with ⟨h1, h2⟩ | ⟨ri, h1, h2, h3, h4⟩
    · rw [hrows] at h2
      exact ⟨fun _ => h2, fun _ => h1⟩
    · rw [hrows] at h2
      constructor
      · intro hc; rw [h1] at hc; omega
      · intro hall; exact absurd h3 (hall ri h2)
  · intro ri hri
    rcases t.pffRow_spec with ⟨h1, h2⟩ | ⟨ri', h1, h2, h3, h4⟩
    · rw [h1] at hri; omega
    · have : ri' = ri := by rw [h1] at hri; omega
      subst this
      rw [hrows] at h2
      exact ⟨h2, h3, h4⟩
  · intro r js hjs
    have h := t.pffColScan_some_spec r hjs
    rw [hcols] at h
    exact h
  · intro hfeas
    show Tableau.MakeFeasibleAux 19 t = true
    rw [Tableau.MakeFeasibleAux_succ, if_pos hfeas]
  · intro hfeas hall
    show Tableau.MakeFeasibleAux 19 t = false
    rw [Tableau.MakeFeasibleAux_succ,
      if_neg (by rw [hfeas]; exact fun hc => Bool.noConfusion hc)]
    rw [← hcols] at hall
    rcases t.pffRow_spec with ⟨h1, h2⟩ | ⟨ri, h1, h2, h3, h4⟩
    · have hpff : t.PivotForFeasibility = (-1, -1) := by
        rw [Tableau.PivotForFeasibility_def, if_pos h1]
      rw [hpff]
      rw [if_neg (by simp [Tableau.IsPivotValid])]
    · have htn : t.pffRow.toNat = ri := by rw [h1]; omega
      rw [htn] at hall
      have hcol : (t.pffColScan ri).1 = -1 := (t.pffColScan_neg_iff ri).mpr hall
      have hpff : t.PivotForFeasibility = ((ri : Int), -1) := by
        rw [Tableau.PivotForFeasibility_def, if_neg (by rw [h1]; omega), htn, hcol, h1]
      rw [hpff]
      rw [if_neg (by simp [Tableau.IsPivotValid])]
  · intro h
    exact Tableau.makeFeasibleAux_false 19 t h

/-- Witness for C5 at `exTopt` (already feasible: returns true at once). -/
theorem makeFeasible_spec_witness :
    exTopt.IsFeasible = true ∧ exTopt.MakeFeasible = true :=
  ⟨by decide,
    (makeFeasible_spec exTopt 2 2 (by decide) (by decide)).2.2.2.2.1 (by decide)⟩

/-! ## Claim C8 -/

theorem solInsert_self (m : SolMap) (k : String) (v : Fraction) :
    solInsert m k v k = some v := by
  unfold solInsert
  rw [if_pos rfl]

theorem solInsert_other (m : SolMap) {k x : String} (v : Fraction) (h : x ≠ k) :
    solInsert m k v x = m x := by
  unfold solInsert
  rw [if_neg h]

theorem solInsert_idem (m : SolMap) (k : String) (v : Fraction) :
    solInsert (solInsert m k v) k v = solInsert m k v := by
  funext x
  unfold solInsert
  by_cases hx : x = k
  · rw [if_pos hx, if_pos hx]
  · rw [if_neg hx, if_neg hx]

theorem innerfold_eq (k : String) (v : Fraction) :
    ∀ (L : Nat) (acc : SolMap), 0 < L →
    (List.range L).foldl (fun a _ => solInsert a k v) acc = solInsert acc k v := by
  intro L
  induction L with
  | zero => intro acc h; omega
  | succ L ih =>
    intro acc _
    rw [foldl_range_succ]
    by_cases h0 : 0 < L
    · rw [ih acc h0, solInsert_idem]
    · have : L = 0 := by omega
      subst this
      rfl

theorem rowfold_untouched (lab : Nat → String) (value : Nat → Fraction) (inner : Nat) :
    ∀ (L : Nat) (acc : SolMap) (key : String), (∀ i < L, lab i ≠ key) →
    ((List.range L).foldl
      (fun acc i => (List.range inner).foldl
        (fun a _ => solInsert a (lab i) (value i)) acc) acc) key = acc key := by
  intro L
  induction L with
  | zero => intro acc key _; rfl
  | succ L ih =>
    intro acc key hne
    rw [foldl_range_succ]
    by_cases hin : 0 < inner
    · rw [innerfold_eq _ _ inner _ hin]
      rw [solInsert_other _ _ (fun h => hne L (by omega) h.symm)]
      exact ih acc key (fun i hi => hne i (by omega))
    · have : inner = 0 := by omega
      subst this
      show ((List.range L).foldl _ acc) key = acc key
      exact ih acc key (fun i hi => hne i (by omega))

theorem rowfold_value (lab : Nat → String) (value : Nat → Fraction) (inner : Nat)
    (hin : 0 < inner) :
    ∀ (L : Nat) (acc : SolMap) (i : Nat), i < L →
    (∀ i' < L, i' ≠ i → lab i' ≠ lab i) →
    ((List.range L).foldl
      (fun acc i => (List.range inner).foldl
        (fun a _ => solInsert a (lab i) (value i)) acc) acc) (lab i) = some (value i) := by
  intro L
  induction L with
  | zero => intro acc i hi; omega
  | succ L ih =>
    intro acc i hi hdist
    rw [foldl_range_succ, innerfold_eq _ _ inner _ hin]
    by_cases hiL : i = L
    · subst hiL
      exact solInsert_self _ _ _
    · have hLi : lab i ≠ lab L :=
        fun hh => (hdist L (by omega) (fun h2 => hiL h2.symm)) hh.symm
      rw [solInsert_other _ _ hLi]
      exact ih acc i (by omega) (fun i' hi' hne => hdist i' (by omega) hne)

theorem colfold_preserve (name : Nat → String) :
    ∀ (L : Nat) (acc : SolMap) (key : String) (v : Fraction), acc key = some v →
    ((List.range L).foldl
      (fun acc j => if acc (name j) = none
        then solInsert acc (name j) ⟨0, 1⟩ else acc) acc) key = some v := by
  intro L
  induction L with
  | zero => intro acc key v h; exact h
  | succ L ih =>
    intro acc key v h
    rw [foldl_range_succ]
    have hprev := ih acc key v h
    by_cases hc : ((List.range L).foldl
        (fun acc j => if acc (name j) = none
          then solInsert acc (name j) ⟨0, 1⟩ else acc) acc) (name L) = none
    · rw [if_pos hc]
      by_cases hk : key = name L
      · exfalso
        rw [hk] at hprev
        rw [hprev] at hc
        exact Option.noConfusion hc
      · rw [solInsert_other _ _ hk]
        exact hprev
    · rw [if_neg hc]
      exact hprev

theorem colfold_untouched (name : Nat → String) :
    ∀ (L : Nat) (acc : SolMap) (key : String), (∀ j < L, name j ≠ key) →
    ((List.range L).foldl
      (fun acc j => if acc (name j) = none
        then solInsert acc (name j) ⟨0, 1⟩ else acc) acc) key = acc key := by
  intro L
  induction L with
  | zero => intro acc key _; rfl
  | succ L ih =>
    intro acc key hne
    rw [foldl_range_succ]
    have hprev := ih acc key (fun j hj => hne j (by omega))
    by_cases hc : ((List.range L).foldl
        (fun acc j => if acc (name j) = none
          then solInsert acc (name j) ⟨0, 1⟩ else acc) acc) (name L) = none
    · rw [if_pos hc]
      rw [solInsert_other _ _ (fun h => hne L (by omega) h.symm)]
      exact hprev
    · rw [if_neg hc]
      exact hprev

theorem colfold_new (name : Nat → String) :
    ∀ (L : Nat) (acc : SolMap) (key : String), acc key = none →
    (∃ j < L, name j = key) →
    ((List.range L).foldl
      (fun acc j => if acc (name j) = none
        then solInsert acc (name j) ⟨0, 1⟩ else acc) acc) key = some ⟨0, 1⟩ := by
  intro L
  induction L with
  | zero => intro acc key _ h; obtain ⟨j, hj, _⟩ := h; omega
  | succ L ih =>
    intro acc key hnone hex
    rw [foldl_range_succ]
    by_cases hexL : ∃ j < L, name j = key
    · have hprev := ih acc key hnone hexL
      by_cases hc : ((List.range L).foldl
          (fun acc j => if acc (name j) = none
            then solInsert acc (name j) ⟨0, 1⟩ else acc) acc) (name L) = none
      · rw [if_pos hc]
        by_cases hk : key = name L
        · exfalso
          rw [hk] at hprev
          rw [hprev] at hc
          exact Option.noConfusion hc
        · rw [solInsert_other _ _ hk]
          exact hprev
      · rw [if_neg hc]
        exact hprev
    · obtain ⟨j, hj, hname⟩ := hex
      have hjL : j = L := by
        by_contra hne
        exact hexL ⟨j, by omega, hname⟩
      subst hjL
      push_neg at hexL
      have huntouched := colfold_untouched name j acc key
        (fun j' hj' => hexL j' hj')
      have hc : ((List.range j).foldl
          (fun acc j => if acc (name j) = none
            then solInsert acc (name j) ⟨0, 1⟩ else acc) acc) (name j) = none := by
        rw [hname, huntouched]
        exact hnone
      rw [if_pos hc, hname]
      exact solInsert_self _ _ _

namespace Tableau

/-- `GetSolution` with its `let`s inlined. -/
theorem GetSolution_def (t : Tableau) : t.GetSolution =
    (List.range (t.cols - 1)).foldl
      (fun acc j => if acc (t.colNames.getD j "") = none
        then solInsert acc (t.colNames.getD j "") ⟨0, 1⟩ else acc)
      ((List.range (t.rows - 1)).foldl
        (fun acc i => (List.range (t.cols - 1)).foldl
          (fun acc2 _ => solInsert acc2 (t.rowNames.getD i "") (t.entry i (t.cols - 1)))
          acc)
        (solInsert (fun _ => none) "objective"
          (t.entry (t.rows - 1) (t.cols - 1)))) := rfl

end Tableau

/-- C8 (counterexample): `exT8`'s constraint row is labelled `"objective"`;
its RHS `5` overwrites the reserved key, so the mapping binds `"objective"`
to `5/1` — the constraint row's RHS — and not to the objective row's RHS
`7/1` as the claim requires. -/
theorem getSolution_objective_cex :
    exT8.GetSolution "objective" = some ⟨5, 1⟩ ∧
      exT8.entry 1 1 = ⟨7, 1⟩ ∧
      exT8.GetSolution "objective" ≠ some (exT8.entry 1 1) :=
  ⟨by decide, by decide, by decide⟩

/-- C8 (amended): provided no constraint-row label equals `"objective"` and
the constraint-row labels are pairwise distinct, `GetSolution` binds
`"objective"` to the objective row's RHS, each constraint row's label to
that row's RHS, and each column label not already present as a key to the
zero rational `0/1`.  (Without those provisos a row label can overwrite the
`"objective"` binding, or a later duplicate row label the earlier one.) -/
theorem getSolution_spec (t : Tableau) (m n : Nat) (hwf : t.WF m n)
    (hm : 1 ≤ m) (hn : 2 ≤ n)
    (hobj : ∀ i < m - 1, t.rowNames.getD i "" ≠ "objective")
    (hdist : ∀ i1 < m - 1, ∀ i2 < m - 1, i1 ≠ i2 →
      t.rowNames.getD i1 "" ≠ t.rowNames.getD i2 "") :
    t.GetSolution "objective" = some (t.entry (m - 1) (n - 1)) ∧
    (∀ i < m - 1, t.GetSolution (t.rowNames.getD i "") = some (t.entry i (n - 1))) ∧
    (∀ j < n - 1, t.colNames.getD j "" ≠ "objective" →
      (∀ i < m - 1, t.colNames.getD j "" ≠ t.rowNames.getD i "") →
      t.GetSolution (t.colNames.getD j "") = some ⟨0, 1⟩) := by
  have hrows : t.rows = m := hwf.rows_eq
  have hcols : t.cols = n := hwf.cols_eq hm
  have hin : 0 < t.cols - 1 := by omega
  rw [← hrows] at hobj hdist
  refine ⟨?_, ?_, ?_⟩
  · rw [← hrows, ← hcols, Tableau.GetSolution_def]
    apply colfold_preserve
    have hrow := rowfold_untouched (fun i => t.rowNames.getD i "")
      (fun i => t.entry i (t.cols - 1)) (t.cols - 1) (t.rows - 1)
      (solInsert (fun _ => none) "objective" (t.entry (t.rows - 1) (t.cols - 1)))
      "objective" (fun i hi => hobj i hi)
    rw [hrow]
    exact solInsert_self _ _ _
  · intro i hi
    rw [← hrows] at hi
    rw [← hcols, Tableau.GetSolution_def]
    apply colfold_preserve
    exact rowfold_value (fun i => t.rowNames.getD i "")
      (fun i => t.entry i (t.cols - 1)) (t.cols - 1) hin (t.rows - 1) _ i hi
      (fun i' hi' hne => hdist i' hi' i hi hne)
  · intro j hj hobjne hlabne
    rw [← hcols] at hj
    rw [← hrows] at hlabne
    rw [Tableau.GetSolution_def]
    apply colfold_new _ _ _ _ _ ⟨j, hj, rfl⟩
    have hrow := rowfold_untouched (fun i => t.rowNames.getD i "")
      (fun i => t.entry i (t.cols - 1)) (t.cols - 1) (t.rows - 1)
      (solInsert (fun _ => none) "objective" (t.entry (t.rows - 1) (t.cols - 1)))
      (t.colNames.getD j "") (fun i hi h => hlabne i hi h.symm)
    rw [hrow]
    rw [solInsert_other _ _ hobjne]

/-- Witness for C8 at `exT1` (labels `s1`, `F`; no clash). -/
theorem getSolution_spec_witness :
    exT1.GetSolution "objective" = some (exT1.entry (2 - 1) (2 - 1)) :=
  (getSolution_spec exT1 2 2 (by decide) (by decide) (by decide)
    (by decide) (by decide)).1
